import Mathlib

/-!
Verification of the session synchronization engine of the netflixparty
website server (`server.js`).  The in-memory stores, the websocket
handlers (`reboot`, `createSession`, `joinSession`, `leaveSession`,
`updateSession`, `disconnect`), the legacy HTTP endpoints
(`POST /sessions/create`, `POST /sessions/:id/update`, `GET /sessions/:id`)
and the hourly vacuum sweep are embedded shallowly as pure Lean functions
over explicit state.  Wall-clock reads (`new Date()`) become explicit
`now` parameters; the random id generator becomes an explicit fresh-id
parameter; a JavaScript `TypeError` from dereferencing a missing record is
modelled by the handler returning `none`.
-/

namespace NPModel

/-- Playback state of a session: the strings `'playing' | 'paused'`. -/
inductive PlayState where
  | playing : PlayState
  | paused : PlayState
deriving DecidableEq

/-- Dynamically typed JavaScript values as far as the handlers inspect
them: a number (modelled as a rational, so that the integrality test
`x % 1 === 0` is meaningful), a string, or anything else
(`undefined`, `null`, objects, booleans), which every validation in the
source rejects the same way. -/
inductive JVal where
  | num : ℚ → JVal
  | str : String → JVal
  | undef : JVal
  | other : JVal
deriving DecidableEq

/-- The JavaScript test `typeof x === 'number' && x % 1 === 0`:
an integral number. -/
def JVal.isIntNum : JVal → Bool
  | .num q => q.den == 1
  | _ => false

/-- The JavaScript test
`typeof x === 'number' && x % 1 === 0 && x >= 0`. -/
def JVal.isNonNegIntNum : JVal → Bool
  | .num q => q.den == 1 && 0 ≤ q
  | _ => false

/-- Extract the integer value of an integral number (0 otherwise;
only used after validation). -/
def JVal.toInt : JVal → ℤ
  | .num q => q.num
  | _ => 0

/-- The JavaScript test
`typeof x === 'string' && (x === 'playing' || x === 'paused')`,
returning the parsed state. -/
def JVal.toPlayState : JVal → Option PlayState
  | .str s => if s = "playing" then some .playing
              else if s = "paused" then some .paused else none
  | _ => none

/-- A session record, as stored in the `sessions` map.  `Date` values are
represented by their epoch milliseconds. -/
structure Session where
  id : String
  lastActivity : ℤ
  lastKnownTime : ℤ
  lastKnownTimeUpdatedAt : ℤ
  state : PlayState
  userIds : List String
  videoId : ℤ
deriving DecidableEq

/-- A user record, as stored in the `users` map.  The websocket handle is
not part of the data model; pushes are recorded in an emit list keyed by
the recipient's user id. -/
structure User where
  id : String
  sessionId : Option String
deriving DecidableEq

/-- The two in-memory stores. -/
structure World where
  sessions : List (String × Session)
  users : List (String × User)
deriving DecidableEq

/-- The empty initial state: no sessions, no users. -/
def initWorld : World := ⟨[], []⟩

/-! ### String-keyed maps as association lists

JavaScript objects used as dictionaries (`sessions`, `users`) are
embedded as association lists with the canonical update discipline
"remove the key, then cons", which keeps keys unique. -/

/-- Lookup (`m[k]`, `m.hasOwnProperty(k)` via `isSome`). -/
def getKey (k : String) : List (String × α) → Option α
  | [] => none
  | (k', v) :: m => if k' = k then some v else getKey k m

/-- Deletion (`delete m[k]`). -/
def delKey (k : String) (m : List (String × α)) : List (String × α) :=
  m.filter (fun p => p.1 ≠ k)

/-- Assignment (`m[k] = v`). -/
def setKey (k : String) (v : α) (m : List (String × α)) : List (String × α) :=
  (k, v) :: delKey k m

theorem delKey_cons_self (k : String) (v : α) (m : List (String × α)) :
    delKey k ((k, v) :: m) = delKey k m := by
  simp [delKey]

theorem delKey_cons_ne (h : k' ≠ k) (v : α) (m : List (String × α)) :
    delKey k ((k', v) :: m) = (k', v) :: delKey k m := by
  simp [delKey, h]

theorem getKey_delKey_self (k : String) (m : List (String × α)) :
    getKey k (delKey k m) = none := by
  induction m with
  | nil => rfl
  | cons p m ih =>
      obtain ⟨k', v⟩ := p
      by_cases h : k' = k
      · subst h
        rw [delKey_cons_self]
        exact ih
      · rw [delKey_cons_ne h, getKey]
        simp only [h, if_false]
        exact ih

theorem getKey_delKey_ne (h : k' ≠ k) (m : List (String × α)) :
    getKey k' (delKey k m) = getKey k' m := by
  induction m with
  | nil => rfl
  | cons p m ih =>
      obtain ⟨k'', v⟩ := p
      by_cases h2 : k'' = k
      · subst h2
        rw [delKey_cons_self, getKey]
        simp only [Ne.symm h, if_false]
        exact ih
      · rw [delKey_cons_ne h2, getKey, getKey]
        by_cases h3 : k'' = k'
        · simp [h3]
        · simp only [h3, if_false]
          exact ih

theorem getKey_setKey_self (k : String) (v : α) (m : List (String × α)) :
    getKey k (setKey k v m) = some v := by
  simp [setKey, getKey]

theorem getKey_setKey_ne (h : k' ≠ k) (v : α) (m : List (String × α)) :
    getKey k' (setKey k v m) = getKey k' m := by
  simp [setKey, getKey, Ne.symm h, getKey_delKey_ne h]

theorem mem_delKey {p : String × α} {m : List (String × α)} :
    p ∈ delKey k m ↔ p ∈ m ∧ p.1 ≠ k := by
  simp [delKey]

theorem mem_setKey {p : String × α} {m : List (String × α)} :
    p ∈ setKey k v m ↔ p = (k, v) ∨ (p ∈ m ∧ p.1 ≠ k) := by
  simp [setKey, mem_delKey]

theorem getKey_isSome_of_mem {p : String × α} {m : List (String × α)}
    (h : p ∈ m) : (getKey p.1 m).isSome := by
  induction m with
  | nil => simp at h
  | cons q m ih =>
      obtain ⟨k', v⟩ := q
      rcases List.mem_cons.mp h with h1 | h1
      · subst h1
        simp [getKey]
      · by_cases h2 : k' = p.1
        · simp [getKey, h2]
        · simpa [getKey, h2] using ih h1

theorem mem_of_getKey {m : List (String × α)} (h : getKey k m = some v) :
    (k, v) ∈ m := by
  induction m with
  | nil => simp [getKey] at h
  | cons p m ih =>
      obtain ⟨k', v'⟩ := p
      by_cases h2 : k' = k
      · subst h2
        have hv : v' = v := by simpa [getKey] using h
        subst hv
        exact List.mem_cons_self _ _
      · simp only [getKey, h2, if_false] at h
        exact List.mem_cons_of_mem _ (ih h)

/-- Keys of an association list. -/
def keys (m : List (String × α)) : List String := m.map Prod.fst

theorem keys_delKey_sublist (k : String) (m : List (String × α)) :
    (keys (delKey k m)).Sublist (keys m) := by
  simpa [keys, delKey] using (List.filter_sublist m).map Prod.fst

theorem keys_nodup_delKey {m : List (String × α)} (h : (keys m).Nodup) :
    (keys (delKey k m)).Nodup :=
  (keys_delKey_sublist k m).nodup h

theorem not_mem_keys_delKey_self (k : String) (m : List (String × α)) :
    k ∉ keys (delKey k m) := by
  intro hmem
  simp only [keys, List.mem_map] at hmem
  obtain ⟨p, hp, hpk⟩ := hmem
  exact (mem_delKey.mp hp).2 hpk

theorem keys_nodup_setKey {m : List (String × α)} (h : (keys m).Nodup) :
    (keys (setKey k v m)).Nodup := by
  simp only [setKey, keys, List.map_cons, List.nodup_cons]
  exact ⟨not_mem_keys_delKey_self k m, keys_nodup_delKey h⟩

theorem getKey_eq_some_of_mem {m : List (String × α)} (hnd : (keys m).Nodup)
    {p : String × α} (h : p ∈ m) : getKey p.1 m = some p.2 := by
  induction m with
  | nil => simp at h
  | cons q m ih =>
      obtain ⟨k', v'⟩ := q
      simp only [keys, List.map_cons, List.nodup_cons] at hnd
      rcases List.mem_cons.mp h with h1 | h1
      · subst h1
        simp [getKey]
      · by_cases h2 : k' = p.1
        · exfalso
          exact hnd.1 (h2 ▸ (List.mem_map_of_mem Prod.fst h1))
        · simpa [getKey, h2] using ih hnd.2 h1

/-! ### Protocol messages and replies -/

/-- The three playback fields carried by a `reboot` reply and by a server
`update` push: `{lastKnownTime, lastKnownTimeUpdatedAt, state}`. -/
structure SyncInfo where
  lastKnownTime : ℤ
  lastKnownTimeUpdatedAt : ℤ
  state : PlayState
deriving DecidableEq

/-- Payload of a server-initiated push (`socket.emit`). -/
inductive Payload where
  | userId : String → Payload
  | update : SyncInfo → Payload
deriving DecidableEq

/-- A single push to one user's websocket. -/
structure Emit where
  target : String
  payload : Payload
deriving DecidableEq

/-- Reply to the caller via the acknowledgement callback `fn`:
either a success value or `{errorMessage}`. -/
inductive Reply (α : Type) where
  | ok : α → Reply α
  | err : String → Reply α
deriving DecidableEq

/-- Reply of `createSession`. -/
structure CreateReply where
  lastKnownTime : ℤ
  lastKnownTimeUpdatedAt : ℤ
  sessionId : String
  state : PlayState
deriving DecidableEq

/-- Reply of `joinSession`. -/
structure JoinReply where
  videoId : ℤ
  lastKnownTime : ℤ
  lastKnownTimeUpdatedAt : ℤ
  state : PlayState
deriving DecidableEq

/-- Request payload of `reboot`. -/
structure RebootData where
  sessionId : JVal
  lastKnownTime : JVal
  lastKnownTimeUpdatedAt : JVal
  state : JVal
  videoId : JVal
deriving DecidableEq

/-- Request payload of `updateSession`. -/
structure UpdateData where
  lastKnownTime : JVal
  lastKnownTimeUpdatedAt : JVal
  state : JVal
deriving DecidableEq

/-! ### Websocket handlers

Each handler returns `none` exactly when the JavaScript code would throw
a `TypeError` by dereferencing a record missing from a store (in which
case the post-crash store contents are not modelled); otherwise it
returns the new world, the acknowledgement sent to the caller, and the
list of pushes to other sockets. -/

/-- The `io.on('connection')` prologue: register a fresh user with no
session and push the new id to the client.  `uid` stands for the
`makeId()` result. -/
def connectH (uid : String) (w : World) : World × List Emit :=
  (⟨w.sessions, setKey uid ⟨uid, none⟩ w.users⟩, [⟨uid, .userId uid⟩])

/-- The `socket.on('reboot')` handler. -/
def rebootH (uid : String) (d : RebootData) (now : ℤ) (w : World) :
    Option (World × Reply SyncInfo × List Emit) :=
  match d.sessionId with
  | .str sid =>
    if sid.length = 16 then
      if d.lastKnownTime.isNonNegIntNum then
        if d.lastKnownTimeUpdatedAt.isNonNegIntNum then
          match d.state.toPlayState with
          | some st =>
            if d.videoId.isNonNegIntNum then
              match getKey uid w.users with
              | none => none
              | some u =>
                match getKey sid w.sessions with
                | some s =>
                    -- existing session: append the caller; the final read
                    -- of `sessions[data.sessionId]` for the reply sees the
                    -- stored playback fields, unchanged by the push
                    some (⟨setKey sid { s with userIds := s.userIds ++ [uid] }
                             w.sessions,
                           setKey uid { u with sessionId := some sid } w.users⟩,
                          .ok ⟨s.lastKnownTime, s.lastKnownTimeUpdatedAt, s.state⟩, [])
                | none =>
                    -- unknown session: create it from the caller's fields;
                    -- the reply reads those same stored fields back
                    some (⟨setKey sid ⟨sid, now, d.lastKnownTime.toInt,
                                       d.lastKnownTimeUpdatedAt.toInt, st, [uid],
                                       d.videoId.toInt⟩ w.sessions,
                           setKey uid { u with sessionId := some sid } w.users⟩,
                          .ok ⟨d.lastKnownTime.toInt, d.lastKnownTimeUpdatedAt.toInt,
                               st⟩, [])
            else some (w, .err "Invalid video ID.", [])
          | none => some (w, .err "Invalid state.", [])
        else some (w, .err "Invalid lastKnownTimeUpdatedAt.", [])
      else some (w, .err "Invalid lastKnownTime.", [])
    else some (w, .err "Invalid session ID.", [])
  | _ => some (w, .err "Invalid session ID.", [])

/-- The `socket.on('createSession')` handler.  `fresh` stands for the
`makeId()` result. -/
def createSessionH (uid : String) (videoId : JVal) (fresh : String) (now : ℤ)
    (w : World) : Option (World × Reply CreateReply × List Emit) :=
  if videoId.isNonNegIntNum then
    match getKey uid w.users with
    | none => none
    | some u =>
      some (⟨setKey fresh ⟨fresh, now, 0, now, .paused, [uid], videoId.toInt⟩
               w.sessions,
             setKey uid { u with sessionId := some fresh } w.users⟩,
            .ok ⟨0, now, fresh, .paused⟩, [])
  else some (w, .err "Invalid video ID.", [])

/-- The `socket.on('joinSession')` handler. -/
def joinSessionH (uid : String) (sidV : JVal) (w : World) :
    Option (World × Reply JoinReply × List Emit) :=
  match sidV with
  | .str sid =>
    match getKey sid w.sessions with
    | none => some (w, .err "Invalid session ID.", [])
    | some s =>
      match getKey uid w.users with
      | none => none
      | some u =>
        match u.sessionId with
        | some _ => some (w, .err "Already in a session.", [])
        | none =>
          some (⟨setKey sid { s with userIds := s.userIds ++ [uid] } w.sessions,
                 setKey uid { u with sessionId := some sid } w.users⟩,
                .ok ⟨s.videoId, s.lastKnownTime, s.lastKnownTimeUpdatedAt, s.state⟩, [])
  | _ => some (w, .err "Invalid session ID.", [])

/-- The `socket.on('leaveSession')` handler.  `lodash.pull` removes every
occurrence of `uid` from the member list; if the list becomes empty the
session is deleted at once. -/
def leaveSessionH (uid : String) (w : World) :
    Option (World × Reply Unit × List Emit) :=
  match getKey uid w.users with
  | none => none
  | some u =>
    match u.sessionId with
    | none => some (w, .err "Not in a session.", [])
    | some sid =>
      match getKey sid w.sessions with
      | none => none
      | some s =>
        some (⟨if s.userIds.filter (fun x => x ≠ uid) = []
               then delKey sid w.sessions
               else setKey sid { s with userIds := s.userIds.filter (fun x => x ≠ uid) }
                      w.sessions,
               setKey uid { u with sessionId := none } w.users⟩, .ok (), [])

/-- The fan-out loop of `updateSession`: one `update` push per member id
other than the caller, in member-list order; dereferencing a member id
missing from the user registry (`users[id].socket`) is a crash. -/
def broadcast (uid : String) (reg : List (String × User)) (msg : SyncInfo) :
    List String → Option (List Emit)
  | [] => some []
  | id :: rest =>
    if id = uid then broadcast uid reg msg rest
    else match getKey id reg with
      | none => none
      | some _ => (broadcast uid reg msg rest).map (fun es => ⟨id, .update msg⟩ :: es)

/-- The `socket.on('updateSession')` handler. -/
def updateSessionH (uid : String) (d : UpdateData) (now : ℤ) (w : World) :
    Option (World × Reply Unit × List Emit) :=
  match getKey uid w.users with
  | none => none
  | some u =>
    match u.sessionId with
    | none => some (w, .err "Not in a session.", [])
    | some sid =>
      if d.lastKnownTime.isNonNegIntNum then
        if d.lastKnownTimeUpdatedAt.isNonNegIntNum then
          match d.state.toPlayState with
          | none => some (w, .err "Invalid state.", [])
          | some st =>
            match getKey sid w.sessions with
            | none => none
            | some s =>
              -- the broadcast loop reads the freshly stored fields and the
              -- member list, which the update left unchanged
              match broadcast uid w.users
                      ⟨d.lastKnownTime.toInt, d.lastKnownTimeUpdatedAt.toInt, st⟩
                      s.userIds with
              | none => none
              | some es =>
                  some (⟨setKey sid
                           { s with lastActivity := now,
                                    lastKnownTime := d.lastKnownTime.toInt,
                                    lastKnownTimeUpdatedAt := d.lastKnownTimeUpdatedAt.toInt,
                                    state := st } w.sessions, w.users⟩, .ok (), es)
        else some (w, .err "Invalid lastKnownTimeUpdatedAt.", [])
      else some (w, .err "Invalid lastKnownTime.", [])

/-- The `socket.on('ping')` handler: replies with the current wall-clock
time and touches no state. -/
def pingH (now : ℤ) (w : World) : Option (World × Reply ℤ × List Emit) :=
  some (w, .ok now, [])

/-- The `socket.on('disconnect')` handler: an implicit leave followed by
removal of the user record. -/
def disconnectH (uid : String) (w : World) : Option World :=
  match getKey uid w.users with
  | none => none
  | some u =>
    match u.sessionId with
    | none => some ⟨w.sessions, delKey uid w.users⟩
    | some sid =>
      match getKey sid w.sessions with
      | none => none
      | some s =>
        some ⟨if s.userIds.filter (fun x => x ≠ uid) = []
              then delKey sid w.sessions
              else setKey sid { s with userIds := s.userIds.filter (fun x => x ≠ uid) }
                     w.sessions,
              delKey uid w.users⟩

/-! ### Legacy HTTP endpoints -/

/-- An HTTP response of the legacy API: a 200 with the full session
record, a 404, or a 500 with a plain-text message. -/
inductive LegacyRes where
  | ok200 : Session → LegacyRes
  | err404 : String → LegacyRes
  | err500 : String → LegacyRes
deriving DecidableEq

/-- The `POST /sessions/create` endpoint.  `fresh` stands for the
`makeId()` result.  Note that the validation accepts any integral
number: there is no `videoId < 0` check on this path. -/
def legacyCreateH (videoId : JVal) (fresh : String) (now : ℤ) (w : World) :
    World × LegacyRes :=
  if videoId = .undef then (w, .err500 "Missing parameter: videoId")
  else if videoId.isIntNum then
    (⟨setKey fresh ⟨fresh, now, 0, now, .paused, [], videoId.toInt⟩ w.sessions,
      w.users⟩,
     .ok200 ⟨fresh, now, 0, now, .paused, [], videoId.toInt⟩)
  else (w, .err500 "Invalid parameter: videoId")

/-- Request body of `POST /sessions/:id/update`.  The body may carry a
`lastKnownTimeUpdatedAt` field; the handler never reads it. -/
structure LegacyUpdateBody where
  lastKnownTime : JVal
  lastKnownTimeUpdatedAt : JVal
  state : JVal
deriving DecidableEq

/-- The `POST /sessions/:id/update` endpoint. -/
def legacyUpdateH (sid : String) (b : LegacyUpdateBody) (now : ℤ) (w : World) :
    World × LegacyRes :=
  match getKey sid w.sessions with
  | none => (w, .err404 ("Unknown session id: " ++ sid))
  | some s =>
    if b.lastKnownTime = .undef then (w, .err500 "Missing parameter: lastKnownTime")
    else if b.lastKnownTime.isIntNum then
      if b.lastKnownTime.toInt < 0 then (w, .err500 "Invalid parameter: lastKnownTime")
      else if b.state = .undef then (w, .err500 "Missing parameter: state")
      else
        match b.state.toPlayState with
        | none => (w, .err500 "Invalid parameter: state")
        | some st =>
          (⟨setKey sid { s with lastActivity := now,
                                lastKnownTime := b.lastKnownTime.toInt,
                                lastKnownTimeUpdatedAt := now, state := st }
              w.sessions, w.users⟩,
           .ok200 { s with lastActivity := now,
                           lastKnownTime := b.lastKnownTime.toInt,
                           lastKnownTimeUpdatedAt := now, state := st })
    else (w, .err500 "Invalid parameter: lastKnownTime")

/-- The `GET /sessions/:id` endpoint: refreshes `lastActivity` and
returns the record. -/
def legacyGetH (sid : String) (now : ℤ) (w : World) : World × LegacyRes :=
  match getKey sid w.sessions with
  | none => (w, .err404 ("Unknown session id: " ++ sid))
  | some s =>
    (⟨setKey sid { s with lastActivity := now } w.sessions, w.users⟩,
     .ok200 { s with lastActivity := now })

/-! ### Idle-session reaper -/

/-- The vacuum condition: no members and `lastActivity` more than one
hour (3 600 000 ms) in the past. -/
def isStale (now : ℤ) (s : Session) : Bool :=
  s.userIds.isEmpty && decide (s.lastActivity + 1000 * 60 * 60 < now)

/-- The hourly vacuum sweep: collect stale session ids in a first pass,
then delete them in a second pass. -/
def vacuumH (now : ℤ) (w : World) : World :=
  ⟨((w.sessions.filter (fun p => isStale now p.2)).map Prod.fst).foldl
      (fun m k => delKey k m) w.sessions,
   w.users⟩

/-! ### Events and reachability

An event is one inbound stimulus processed to completion (single-threaded
event loop).  `now` is the wall-clock reading during the event; fresh
identifiers produced by `makeId()` appear as event parameters constrained
to be unused, modelling the negligible-collision contract of the id
generator. -/

/-- One inbound event of the subsystem. -/
inductive Event where
  | connect : String → Event
  | reboot : String → RebootData → Event
  | createSession : String → JVal → String → Event
  | joinSession : String → JVal → Event
  | leaveSession : String → Event
  | updateSession : String → UpdateData → Event
  | disconnect : String → Event
  | legacyCreate : JVal → String → Event
  | legacyUpdate : String → LegacyUpdateBody → Event
  | legacyGet : String → Event
  | vacuum : Event

/-- Small-step transition relation of the subsystem.  Websocket events
carry the hypothesis that the emitting socket is a live connection
(its user record exists: socket.io only dispatches events of connected
sockets, and `disconnect` removes the record last).  A step exists only
when the handler completes without crashing. -/
inductive Step : World → Event → ℤ → World → Prop where
  | connect (w : World) (uid : String) (now : ℤ)
      (hfresh : getKey uid w.users = none) :
      Step w (.connect uid) now (connectH uid w).1
  | reboot (w w2 : World) (uid : String) (d : RebootData) (now : ℤ)
      (r : Reply SyncInfo) (es : List Emit)
      (hlive : (getKey uid w.users).isSome)
      (h : rebootH uid d now w = some (w2, r, es)) :
      Step w (.reboot uid d) now w2
  | createSession (w w2 : World) (uid : String) (v : JVal) (fresh : String)
      (now : ℤ) (r : Reply CreateReply) (es : List Emit)
      (hlive : (getKey uid w.users).isSome)
      (hfresh : getKey fresh w.sessions = none)
      (h : createSessionH uid v fresh now w = some (w2, r, es)) :
      Step w (.createSession uid v fresh) now w2
  | joinSession (w w2 : World) (uid : String) (sidV : JVal) (now : ℤ)
      (r : Reply JoinReply) (es : List Emit)
      (hlive : (getKey uid w.users).isSome)
      (h : joinSessionH uid sidV w = some (w2, r, es)) :
      Step w (.joinSession uid sidV) now w2
  | leaveSession (w w2 : World) (uid : String) (now : ℤ)
      (r : Reply Unit) (es : List Emit)
      (hlive : (getKey uid w.users).isSome)
      (h : leaveSessionH uid w = some (w2, r, es)) :
      Step w (.leaveSession uid) now w2
  | updateSession (w w2 : World) (uid : String) (d : UpdateData) (now : ℤ)
      (r : Reply Unit) (es : List Emit)
      (hlive : (getKey uid w.users).isSome)
      (h : updateSessionH uid d now w = some (w2, r, es)) :
      Step w (.updateSession uid d) now w2
  | disconnect (w w2 : World) (uid : String) (now : ℤ)
      (hlive : (getKey uid w.users).isSome)
      (h : disconnectH uid w = some w2) :
      Step w (.disconnect uid) now w2
  | legacyCreate (w : World) (v : JVal) (fresh : String) (now : ℤ)
      (hfresh : getKey fresh w.sessions = none) :
      Step w (.legacyCreate v fresh) now (legacyCreateH v fresh now w).1
  | legacyUpdate (w : World) (sid : String) (b : LegacyUpdateBody) (now : ℤ) :
      Step w (.legacyUpdate sid b) now (legacyUpdateH sid b now w).1
  | legacyGet (w : World) (sid : String) (now : ℤ) :
      Step w (.legacyGet sid) now (legacyGetH sid now w).1
  | vacuum (w : World) (now : ℤ) :
      Step w .vacuum now (vacuumH now w)

/-- States reachable from the empty stores by event sequences whose
every event satisfies the guard `G` in its pre-state. -/
inductive ReachableG (G : World → Event → Prop) : World → Prop where
  | init : ReachableG G initWorld
  | step (w w2 : World) (e : Event) (now : ℤ) (hr : ReachableG G w)
      (hg : G w e) (hs : Step w e now w2) : ReachableG G w2

/-- The trivial guard: full reachability, any event any time. -/
def anyEvent : World → Event → Prop := fun _ _ => True

/-- Discipline guard: `createSession` and `reboot` are only invoked by
callers that are not currently in a session (which is how the shipped
client uses them; the server does not enforce it). -/
def disciplined : World → Event → Prop := fun w e =>
  match e with
  | .createSession uid _ _ => ∀ u, getKey uid w.users = some u → u.sessionId = none
  | .reboot uid _ => ∀ u, getKey uid w.users = some u → u.sessionId = none
  | _ => True

/-- Guard for the legacy create endpoint: the supplied `videoId` is a
non-negative integral number. -/
def legacyCreateNonNeg : World → Event → Prop := fun _ e =>
  match e with
  | .legacyCreate v _ => v.isNonNegIntNum = true
  | _ => True

/-! ### The membership invariant -/

/-- Every member id listed by a session resolves to a registered user
whose `sessionId` points back at that session. -/
def MembersRegistered (w : World) : Prop :=
  ∀ p ∈ w.sessions, ∀ m ∈ (p.2 : Session).userIds,
    ∃ u, getKey m w.users = some u ∧ u.sessionId = some p.1

/-- Every user `sessionId` pointer resolves to a stored session that
lists the user as a member. -/
def PointersValid (w : World) : Prop :=
  ∀ p ∈ w.users, ∀ sid, (p.2 : User).sessionId = some sid →
    ∃ s, getKey sid w.sessions = some s ∧ p.1 ∈ s.userIds

/-- No session lists a member id twice. -/
def MembersNodup (w : World) : Prop :=
  ∀ p ∈ w.sessions, (p.2 : Session).userIds.Nodup

/-- The two-store consistency invariant. -/
structure Inv (w : World) : Prop where
  skeys : (keys w.sessions).Nodup
  ukeys : (keys w.users).Nodup
  membersReg : MembersRegistered w
  ptrs : PointersValid w
  membersNodup : MembersNodup w

theorem inv_initWorld : Inv initWorld := by
  constructor <;> first
    | exact List.nodup_nil
    | (intro p hp; simp [initWorld] at hp)

theorem not_member_of_sessionId_none (hinv : Inv w)
    (hu : getKey uid w.users = some u) (hn : u.sessionId = none) :
    ∀ p ∈ w.sessions, uid ∉ (p.2 : Session).userIds := by
  intro p hp hmem
  obtain ⟨u2, hu2, hsid⟩ := hinv.membersReg p hp uid hmem
  rw [hu] at hu2
  injection hu2 with hu2
  subst hu2
  rw [hn] at hsid
  exact Option.noConfusion hsid

theorem member_only_own_session (hinv : Inv w)
    (hu : getKey uid w.users = some u) (hs : u.sessionId = some sid) :
    ∀ p ∈ w.sessions, uid ∈ (p.2 : Session).userIds → p.1 = sid := by
  intro p hp hmem
  obtain ⟨u2, hu2, hsid⟩ := hinv.membersReg p hp uid hmem
  rw [hu] at hu2
  injection hu2 with hu2
  subst hu2
  rw [hs] at hsid
  injection hsid with hsid
  exact hsid.symm

theorem inv_connect (hinv : Inv w) (hfresh : getKey uid w.users = none) :
    Inv ⟨w.sessions, setKey uid ⟨uid, none⟩ w.users⟩ := by
  refine ⟨hinv.skeys, keys_nodup_setKey hinv.ukeys, ?_, ?_, hinv.membersNodup⟩
  · intro p hp m hm
    obtain ⟨u2, hu2, hs2⟩ := hinv.membersReg p hp m hm
    have hmne : m ≠ uid := by
      intro h
      rw [h, hfresh] at hu2
      exact Option.noConfusion hu2
    exact ⟨u2, by rwa [getKey_setKey_ne hmne], hs2⟩
  · intro p hp sid2 hsid2
    rcases mem_setKey.mp hp with hp1 | ⟨hp1, _⟩
    · subst hp1
      exact Option.noConfusion hsid2
    · exact hinv.ptrs p hp1 sid2 hsid2

theorem inv_addMember (hinv : Inv w) (hsess : getKey sid w.sessions = some s)
    (hu : getKey uid w.users = some u) (hn : u.sessionId = none) :
    Inv ⟨setKey sid { s with userIds := s.userIds ++ [uid] } w.sessions,
         setKey uid { u with sessionId := some sid } w.users⟩ := by
  have hnotmem := not_member_of_sessionId_none hinv hu hn
  have hsmem := mem_of_getKey hsess
  refine ⟨keys_nodup_setKey hinv.skeys, keys_nodup_setKey hinv.ukeys, ?_, ?_, ?_⟩
  · intro p hp m hm
    rcases mem_setKey.mp hp with hp1 | ⟨hp1, hp2⟩
    · subst hp1
      simp only [List.mem_append, List.mem_singleton] at hm
      rcases hm with hm1 | hm1
      · have hmne : m ≠ uid := fun h => hnotmem _ hsmem (h ▸ hm1)
        obtain ⟨u2, hu2, hs2⟩ := hinv.membersReg _ hsmem m hm1
        exact ⟨u2, by rwa [getKey_setKey_ne hmne], hs2⟩
      · subst hm1
        exact ⟨_, getKey_setKey_self .., rfl⟩
    · have hmne : m ≠ uid := fun h => hnotmem p hp1 (h ▸ hm)
      obtain ⟨u2, hu2, hs2⟩ := hinv.membersReg p hp1 m hm
      exact ⟨u2, by rwa [getKey_setKey_ne hmne], hs2⟩
  · intro p hp sid2 hsid2
    rcases mem_setKey.mp hp with hp1 | ⟨hp1, hp2⟩
    · subst hp1
      simp only at hsid2
      injection hsid2 with hsid2
      subst hsid2
      exact ⟨_, getKey_setKey_self .., by simp⟩
    · obtain ⟨s2, hs2, hmem2⟩ := hinv.ptrs p hp1 sid2 hsid2
      by_cases hcase : sid2 = sid
      · subst hcase
        rw [hsess] at hs2
        injection hs2 with hs2
        subst hs2
        exact ⟨_, getKey_setKey_self .., by simp [hmem2]⟩
      · exact ⟨s2, by rwa [getKey_setKey_ne hcase], hmem2⟩
  · intro p hp
    rcases mem_setKey.mp hp with hp1 | ⟨hp1, hp2⟩
    · subst hp1
      simp only
      refine List.Nodup.append (hinv.membersNodup _ hsmem) (List.nodup_singleton _) ?_
      intro a ha hb
      simp only [List.mem_singleton] at hb
      subst hb
      exact hnotmem _ hsmem ha
    · exact hinv.membersNodup p hp1

theorem inv_newSession (hinv : Inv w) (hfresh : getKey sid w.sessions = none)
    (hu : getKey uid w.users = some u) (hn : u.sessionId = none)
    (s2 : Session) (hids : s2.userIds = [uid]) :
    Inv ⟨setKey sid s2 w.sessions,
         setKey uid { u with sessionId := some sid } w.users⟩ := by
  have hnotmem := not_member_of_sessionId_none hinv hu hn
  refine ⟨keys_nodup_setKey hinv.skeys, keys_nodup_setKey hinv.ukeys, ?_, ?_, ?_⟩
  · intro p hp m hm
    rcases mem_setKey.mp hp with hp1 | ⟨hp1, hp2⟩
    · subst hp1
      simp only [hids, List.mem_singleton] at hm
      subst hm
      exact ⟨_, getKey_setKey_self .., rfl⟩
    · have hmne : m ≠ uid := fun h => hnotmem p hp1 (h ▸ hm)
      obtain ⟨u2, hu2, hs2⟩ := hinv.membersReg p hp1 m hm
      exact ⟨u2, by rwa [getKey_setKey_ne hmne], hs2⟩
  · intro p hp sid2 hsid2
    rcases mem_setKey.mp hp with hp1 | ⟨hp1, hp2⟩
    · subst hp1
      simp only at hsid2
      injection hsid2 with hsid2
      subst hsid2
      exact ⟨s2, getKey_setKey_self .., by simp [hids]⟩
    · obtain ⟨s3, hs3, hmem3⟩ := hinv.ptrs p hp1 sid2 hsid2
      have hcase : sid2 ≠ sid := by
        intro h
        rw [h, hfresh] at hs3
        exact Option.noConfusion hs3
      exact ⟨s3, by rwa [getKey_setKey_ne hcase], hmem3⟩
  · intro p hp
    rcases mem_setKey.mp hp with hp1 | ⟨hp1, hp2⟩
    · subst hp1
      simp only [hids]
      exact List.nodup_singleton _
    · exact hinv.membersNodup p hp1

theorem inv_newEmptySession (hinv : Inv w)
    (hfresh : getKey sid w.sessions = none)
    (s2 : Session) (hids : s2.userIds = []) :
    Inv ⟨setKey sid s2 w.sessions, w.users⟩ := by
  refine ⟨keys_nodup_setKey hinv.skeys, hinv.ukeys, ?_, ?_, ?_⟩
  · intro p hp m hm
    rcases mem_setKey.mp hp with hp1 | ⟨hp1, hp2⟩
    · subst hp1
      rw [hids] at hm
      simp at hm
    · exact hinv.membersReg p hp1 m hm
  · intro p hp sid2 hsid2
    obtain ⟨s3, hs3, hmem3⟩ := hinv.ptrs p hp sid2 hsid2
    have hcase : sid2 ≠ sid := by
      intro h
      rw [h, hfresh] at hs3
      exact Option.noConfusion hs3
    exact ⟨s3, by rwa [getKey_setKey_ne hcase], hmem3⟩
  · intro p hp
    rcases mem_setKey.mp hp with hp1 | ⟨hp1, hp2⟩
    · subst hp1
      rw [hids]
      exact List.nodup_nil
    · exact hinv.membersNodup p hp1

theorem inv_updatePlayback (hinv : Inv w)
    (hsess : getKey sid w.sessions = some s)
    (s2 : Session) (hids : s2.userIds = s.userIds) :
    Inv ⟨setKey sid s2 w.sessions, w.users⟩ := by
  have hsmem := mem_of_getKey hsess
  refine ⟨keys_nodup_setKey hinv.skeys, hinv.ukeys, ?_, ?_, ?_⟩
  · intro p hp m hm
    rcases mem_setKey.mp hp with hp1 | ⟨hp1, hp2⟩
    · subst hp1
      rw [hids] at hm
      exact hinv.membersReg _ hsmem m hm
    · exact hinv.membersReg p hp1 m hm
  · intro p hp sid2 hsid2
    obtain ⟨s3, hs3, hmem3⟩ := hinv.ptrs p hp sid2 hsid2
    by_cases hcase : sid2 = sid
    · subst hcase
      rw [hsess] at hs3
      injection hs3 with hs3
      subst hs3
      exact ⟨s2, getKey_setKey_self .., by rw [hids]; exact hmem3⟩
    · exact ⟨s3, by rwa [getKey_setKey_ne hcase], hmem3⟩
  · intro p hp
    rcases mem_setKey.mp hp with hp1 | ⟨hp1, hp2⟩
    · subst hp1
      rw [hids]
      exact hinv.membersNodup _ hsmem
    · exact hinv.membersNodup p hp1

theorem inv_removeMember (hinv : Inv w) (hu : getKey uid w.users = some u)
    (hs : u.sessionId = some sid) (hsess : getKey sid w.sessions = some s)
    (users2 : List (String × User))
    (hk : (keys users2).Nodup)
    (hmem2 : ∀ p ∈ users2, (p ∈ w.users ∧ p.1 ≠ uid) ∨ (p.2 : User).sessionId = none)
    (hget2 : ∀ m, m ≠ uid → getKey m users2 = getKey m w.users) :
    Inv ⟨if s.userIds.filter (fun x => x ≠ uid) = []
         then delKey sid w.sessions
         else setKey sid { s with userIds := s.userIds.filter (fun x => x ≠ uid) }
                w.sessions,
         users2⟩ := by
  have honly := member_only_own_session hinv hu hs
  have hsmem := mem_of_getKey hsess
  by_cases hrest : s.userIds.filter (fun x => x ≠ uid) = []
  · rw [if_pos hrest]
    refine ⟨keys_nodup_delKey hinv.skeys, hk, ?_, ?_, ?_⟩
    · intro p hp m hm
      obtain ⟨hp1, hp2⟩ := mem_delKey.mp hp
      have hmne : m ≠ uid := by
        intro h
        exact hp2 (honly p hp1 (h ▸ hm))
      obtain ⟨u2, hu2, hs2⟩ := hinv.membersReg p hp1 m hm
      exact ⟨u2, by rwa [hget2 m hmne], hs2⟩
    · intro p hp sid2 hsid2
      rcases hmem2 p hp with ⟨hp1, hp2⟩ | hp1
      · obtain ⟨s3, hs3, hmem3⟩ := hinv.ptrs p hp1 sid2 hsid2
        have hcase : sid2 ≠ sid := by
          intro h
          subst h
          rw [hsess] at hs3
          injection hs3 with hs3
          subst hs3
          have : p.1 ∈ s.userIds.filter (fun x => x ≠ uid) := by
            simp only [List.mem_filter, decide_eq_true_eq]
            exact ⟨hmem3, hp2⟩
          rw [hrest] at this
          simp at this
        exact ⟨s3, by rwa [getKey_delKey_ne hcase], hmem3⟩
      · rw [hp1] at hsid2
        exact Option.noConfusion hsid2
    · intro p hp
      exact hinv.membersNodup p (mem_delKey.mp hp).1
  · rw [if_neg hrest]
    refine ⟨keys_nodup_setKey hinv.skeys, hk, ?_, ?_, ?_⟩
    · intro p hp m hm
      rcases mem_setKey.mp hp with hp1 | ⟨hp1, hp2⟩
      · subst hp1
        simp only [List.mem_filter, decide_eq_true_eq] at hm
        obtain ⟨hm1, hmne⟩ := hm
        obtain ⟨u2, hu2, hs2⟩ := hinv.membersReg _ hsmem m hm1
        exact ⟨u2, by rwa [hget2 m hmne], hs2⟩
      · have hmne : m ≠ uid := by
          intro h
          exact hp2 (honly p hp1 (h ▸ hm))
        obtain ⟨u2, hu2, hs2⟩ := hinv.membersReg p hp1 m hm
        exact ⟨u2, by rwa [hget2 m hmne], hs2⟩
    · intro p hp sid2 hsid2
      rcases hmem2 p hp with ⟨hp1, hp2⟩ | hp1
      · obtain ⟨s3, hs3, hmem3⟩ := hinv.ptrs p hp1 sid2 hsid2
        by_cases hcase : sid2 = sid
        · subst hcase
          rw [hsess] at hs3
          injection hs3 with hs3
          subst hs3
          refine ⟨_, getKey_setKey_self .., ?_⟩
          simp only [List.mem_filter, decide_eq_true_eq]
          exact ⟨hmem3, hp2⟩
        · exact ⟨s3, by rwa [getKey_setKey_ne hcase], hmem3⟩
      · rw [hp1] at hsid2
        exact Option.noConfusion hsid2
    · intro p hp
      rcases mem_setKey.mp hp with hp1 | ⟨hp1, hp2⟩
      · subst hp1
        exact (hinv.membersNodup _ hsmem).filter _
      · exact hinv.membersNodup p hp1

theorem foldl_delKey_eq_filter (ids : List String) (m : List (String × α)) :
    ids.foldl (fun acc k => delKey k acc) m
      = m.filter (fun p => decide (p.1 ∉ ids)) := by
  induction ids generalizing m with
  | nil => simp
  | cons k ids ih =>
      rw [List.foldl_cons, ih, delKey, List.filter_filter]
      congr 1
      funext p
      by_cases h1 : p.1 = k <;> by_cases h2 : p.1 ∈ ids <;> simp [h1, h2]

theorem mem_unique_of_keys_nodup {m : List (String × α)} (hnd : (keys m).Nodup)
    (h1 : (k, a) ∈ m) (h2 : (k, b) ∈ m) : a = b := by
  have e1 := getKey_eq_some_of_mem hnd h1
  have e2 := getKey_eq_some_of_mem hnd h2
  rw [e1] at e2
  injection e2

theorem inv_vacuum (hinv : Inv w) (now : ℤ) : Inv (vacuumH now w) := by
  unfold vacuumH
  rw [foldl_delKey_eq_filter]
  have hsub : ∀ p ∈ w.sessions.filter
      (fun p => decide (p.1 ∉ (w.sessions.filter (fun q => isStale now q.2)).map Prod.fst)),
      p ∈ w.sessions := fun p hp => (List.mem_filter.mp hp).1
  have hknd : (keys (w.sessions.filter
      (fun p => decide (p.1 ∉ (w.sessions.filter (fun q => isStale now q.2)).map Prod.fst)))).Nodup := by
    exact ((List.filter_sublist _).map Prod.fst).nodup hinv.skeys
  refine ⟨hknd, hinv.ukeys, ?_, ?_, ?_⟩
  · intro p hp m hm
    exact hinv.membersReg p (hsub p hp) m hm
  · intro p hp sid2 hsid2
    obtain ⟨s3, hs3, hmem3⟩ := hinv.ptrs p hp sid2 hsid2
    have hsurv : (sid2, s3) ∈ w.sessions.filter
        (fun p => decide (p.1 ∉ (w.sessions.filter (fun q => isStale now q.2)).map Prod.fst)) := by
      rw [List.mem_filter]
      refine ⟨mem_of_getKey hs3, ?_⟩
      rw [decide_eq_true_eq]
      intro hin
      simp only [List.mem_map, List.mem_filter] at hin
      obtain ⟨q, ⟨hq1, hq2⟩, hq3⟩ := hin
      obtain ⟨qk, qs⟩ := q
      simp only at hq3
      subst hq3
      have : qs = s3 := mem_unique_of_keys_nodup hinv.skeys hq1 (mem_of_getKey hs3)
      subst this
      simp only [isStale, Bool.and_eq_true, List.isEmpty_iff] at hq2
      rw [hq2.1] at hmem3
      simp at hmem3
    exact ⟨s3, getKey_eq_some_of_mem hknd hsurv, hmem3⟩
  · intro p hp
    exact hinv.membersNodup p (hsub p hp)

theorem inv_rebootH (hinv : Inv w)
    (hg : ∀ u, getKey uid w.users = some u → u.sessionId = none)
    (h : rebootH uid d now w = some (w2, r, es)) : Inv w2 := by
  unfold rebootH at h
  repeat' split at h
  all_goals first
    | exact Option.noConfusion h
    | (simp only [Option.some.injEq, Prod.mk.injEq] at h
       obtain ⟨hw, hr, he⟩ := h
       subst hw
       first
         | exact hinv
         | exact inv_addMember hinv (by assumption) (by assumption)
             (hg _ (by assumption))
         | exact inv_newSession hinv (by assumption) (by assumption)
             (hg _ (by assumption)) _ rfl)

theorem inv_createSessionH (hinv : Inv w)
    (hg : ∀ u, getKey uid w.users = some u → u.sessionId = none)
    (hfresh : getKey fresh w.sessions = none)
    (h : createSessionH uid v fresh now w = some (w2, r, es)) : Inv w2 := by
  unfold createSessionH at h
  repeat' split at h
  all_goals first
    | exact Option.noConfusion h
    | (simp only [Option.some.injEq, Prod.mk.injEq] at h
       obtain ⟨hw, hr, he⟩ := h
       subst hw
       first
         | exact hinv
         | exact inv_newSession hinv hfresh (by assumption)
             (hg _ (by assumption)) _ rfl)

theorem inv_joinSessionH (hinv : Inv w)
    (h : joinSessionH uid sidV w = some (w2, r, es)) : Inv w2 := by
  unfold joinSessionH at h
  repeat' split at h
  all_goals first
    | exact Option.noConfusion h
    | (simp only [Option.some.injEq, Prod.mk.injEq] at h
       obtain ⟨hw, hr, he⟩ := h
       subst hw
       first
         | exact hinv
         | exact inv_addMember hinv (by assumption) (by assumption)
             (by assumption))

theorem inv_leaveSessionH (hinv : Inv w)
    (h : leaveSessionH uid w = some (w2, r, es)) : Inv w2 := by
  unfold leaveSessionH at h
  split at h
  · exact Option.noConfusion h
  · rename_i u hu
    split at h
    · simp only [Option.some.injEq, Prod.mk.injEq] at h
      exact h.1 ▸ hinv
    · rename_i sid hsid
      split at h
      · exact Option.noConfusion h
      · rename_i s hs
        simp only [Option.some.injEq, Prod.mk.injEq] at h
        obtain ⟨hw, hr, he⟩ := h
        subst hw
        refine inv_removeMember hinv hu hsid hs _
          (keys_nodup_setKey hinv.ukeys) ?_ ?_
        · intro p hp
          rcases mem_setKey.mp hp with hp1 | ⟨hp1, hp2⟩
          · subst hp1
            exact Or.inr rfl
          · exact Or.inl ⟨hp1, hp2⟩
        · exact fun m hm => getKey_setKey_ne hm _ _

theorem inv_updateSessionH (hinv : Inv w)
    (h : updateSessionH uid d now w = some (w2, r, es)) : Inv w2 := by
  unfold updateSessionH at h
  split at h
  · exact Option.noConfusion h
  · rename_i u hu
    split at h
    · simp only [Option.some.injEq, Prod.mk.injEq] at h
      exact h.1 ▸ hinv
    · rename_i sid hsid
      split at h
      · split at h
        · split at h
          · simp only [Option.some.injEq, Prod.mk.injEq] at h
            exact h.1 ▸ hinv
          · rename_i st hst
            split at h
            · exact Option.noConfusion h
            · rename_i s hs
              split at h
              · exact Option.noConfusion h
              · rename_i es2 hb
                simp only [Option.some.injEq, Prod.mk.injEq] at h
                obtain ⟨hw, hr, he⟩ := h
                subst hw
                exact inv_updatePlayback hinv hs _ rfl
        · simp only [Option.some.injEq, Prod.mk.injEq] at h
          exact h.1 ▸ hinv
      · simp only [Option.some.injEq, Prod.mk.injEq] at h
        exact h.1 ▸ hinv

theorem inv_disconnectH (hinv : Inv w)
    (h : disconnectH uid w = some w2) : Inv w2 := by
  unfold disconnectH at h
  split at h
  · exact Option.noConfusion h
  · rename_i u hu
    split at h
    · rename_i hnone
      simp only [Option.some.injEq] at h
      subst h
      refine ⟨hinv.skeys, keys_nodup_delKey hinv.ukeys, ?_, ?_, hinv.membersNodup⟩
      · intro p hp m hm
        obtain ⟨u2, hu2, hs2⟩ := hinv.membersReg p hp m hm
        have hmne : m ≠ uid := by
          intro hcontra
          subst hcontra
          exact not_member_of_sessionId_none hinv hu hnone p hp hm
        exact ⟨u2, by rwa [getKey_delKey_ne hmne], hs2⟩
      · intro p hp sid2 hsid2
        exact hinv.ptrs p (mem_delKey.mp hp).1 sid2 hsid2
    · rename_i sid hsid
      split at h
      · exact Option.noConfusion h
      · rename_i s hs
        simp only [Option.some.injEq] at h
        subst h
        exact inv_removeMember hinv hu hsid hs _ (keys_nodup_delKey hinv.ukeys)
          (fun p hp => Or.inl (mem_delKey.mp hp))
          (fun m hm => getKey_delKey_ne hm _)

theorem inv_legacyCreateH (hinv : Inv w)
    (hfresh : getKey fresh w.sessions = none) :
    Inv (legacyCreateH v fresh now w).1 := by
  unfold legacyCreateH
  split
  · exact hinv
  · split
    · exact inv_newEmptySession hinv hfresh _ rfl
    · exact hinv

theorem inv_legacyUpdateH (hinv : Inv w) :
    Inv (legacyUpdateH sid b now w).1 := by
  unfold legacyUpdateH
  split
  · exact hinv
  · rename_i s hs
    split
    · exact hinv
    · split
      · split
        · exact hinv
        · split
          · exact hinv
          · split
            · exact hinv
            · exact inv_updatePlayback hinv hs _ rfl
      · exact hinv

theorem inv_legacyGetH (hinv : Inv w) :
    Inv (legacyGetH sid now w).1 := by
  unfold legacyGetH
  split
  · exact hinv
  · rename_i s hs
    exact inv_updatePlayback hinv hs _ rfl

/-- Any state reachable under the discipline guard satisfies the
two-store consistency invariant. -/
theorem inv_reachable (h : ReachableG disciplined w) : Inv w := by
  induction h with
  | init => exact inv_initWorld
  | step w w2 e now hr hg hs ih =>
      cases hs with
      | connect uid now hfresh => exact inv_connect ih hfresh
      | reboot w2 uid d now r es hlive h => exact inv_rebootH ih hg h
      | createSession w2 uid v fresh now r es hlive hfresh h =>
          exact inv_createSessionH ih hg hfresh h
      | joinSession w2 uid sidV now r es hlive h => exact inv_joinSessionH ih h
      | leaveSession w2 uid now r es hlive h => exact inv_leaveSessionH ih h
      | updateSession w2 uid d now r es hlive h => exact inv_updateSessionH ih h
      | disconnect w2 uid now hlive h => exact inv_disconnectH ih h
      | legacyCreate v fresh now hfresh => exact inv_legacyCreateH ih hfresh
      | legacyUpdate sid b now => exact inv_legacyUpdateH ih
      | legacyGet sid now => exact inv_legacyGetH ih
      | vacuum now => exact inv_vacuum ih now

/-! ### The videoId sign invariant -/

/-- Every stored session has a non-negative `videoId`. -/
def VideoIdsNonNeg (m : List (String × Session)) : Prop :=
  ∀ p ∈ m, 0 ≤ (p.2 : Session).videoId

theorem toInt_nonneg_of_isNonNegIntNum (h : JVal.isNonNegIntNum v = true) :
    0 ≤ v.toInt := by
  cases v with
  | num q =>
      simp only [JVal.isNonNegIntNum, Bool.and_eq_true, beq_iff_eq,
        decide_eq_true_eq] at h
      exact Rat.num_nonneg.mpr h.2
  | str s => simp [JVal.isNonNegIntNum] at h
  | undef => simp [JVal.isNonNegIntNum] at h
  | other => simp [JVal.isNonNegIntNum] at h

theorem vidsNN_setKey (h : VideoIdsNonNeg m) (hs : 0 ≤ s.videoId) :
    VideoIdsNonNeg (setKey k s m) := by
  intro p hp
  rcases mem_setKey.mp hp with hp1 | ⟨hp1, _⟩
  · subst hp1
    exact hs
  · exact h p hp1

theorem vidsNN_delKey (h : VideoIdsNonNeg m) : VideoIdsNonNeg (delKey k m) :=
  fun p hp => h p (mem_delKey.mp hp).1

theorem vids_rebootH (hv : VideoIdsNonNeg w.sessions)
    (h : rebootH uid d now w = some (w2, r, es)) : VideoIdsNonNeg w2.sessions := by
  unfold rebootH at h
  repeat' split at h
  all_goals first
    | exact Option.noConfusion h
    | (simp only [Option.some.injEq, Prod.mk.injEq] at h
       obtain ⟨hw, hr, he⟩ := h
       subst hw
       first
         | exact hv
         | (refine vidsNN_setKey hv ?_
            dsimp only
            first
              | exact hv _ (mem_of_getKey (by assumption))
              | exact toInt_nonneg_of_isNonNegIntNum (by assumption)))

theorem vids_createSessionH (hv : VideoIdsNonNeg w.sessions)
    (h : createSessionH uid v fresh now w = some (w2, r, es)) :
    VideoIdsNonNeg w2.sessions := by
  unfold createSessionH at h
  repeat' split at h
  all_goals first
    | exact Option.noConfusion h
    | (simp only [Option.some.injEq, Prod.mk.injEq] at h
       obtain ⟨hw, hr, he⟩ := h
       subst hw
       first
         | exact hv
         | exact vidsNN_setKey hv (toInt_nonneg_of_isNonNegIntNum (by assumption)))

theorem vids_joinSessionH (hv : VideoIdsNonNeg w.sessions)
    (h : joinSessionH uid sidV w = some (w2, r, es)) :
    VideoIdsNonNeg w2.sessions := by
  unfold joinSessionH at h
  repeat' split at h
  all_goals first
    | exact Option.noConfusion h
    | (simp only [Option.some.injEq, Prod.mk.injEq] at h
       obtain ⟨hw, hr, he⟩ := h
       subst hw
       first
         | exact hv
         | (refine vidsNN_setKey hv ?_
            dsimp only
            exact hv _ (mem_of_getKey (by assumption))))

theorem vids_leaveSessionH (hv : VideoIdsNonNeg w.sessions)
    (h : leaveSessionH uid w = some (w2, r, es)) :
    VideoIdsNonNeg w2.sessions := by
  unfold leaveSessionH at h
  repeat' split at h
  all_goals first
    | exact Option.noConfusion h
    | (simp only [Option.some.injEq, Prod.mk.injEq] at h
       obtain ⟨hw, hr, he⟩ := h
       subst hw
       first
         | exact hv
         | exact vidsNN_delKey hv
         | (refine vidsNN_setKey hv ?_
            dsimp only
            exact hv _ (mem_of_getKey (by assumption))))

theorem vids_updateSessionH (hv : VideoIdsNonNeg w.sessions)
    (h : updateSessionH uid d now w = some (w2, r, es)) :
    VideoIdsNonNeg w2.sessions := by
  unfold updateSessionH at h
  repeat' split at h
  all_goals first
    | exact Option.noConfusion h
    | (simp only [Option.some.injEq, Prod.mk.injEq] at h
       obtain ⟨hw, hr, he⟩ := h
       subst hw
       first
         | exact hv
         | (refine vidsNN_setKey hv ?_
            dsimp only
            exact hv _ (mem_of_getKey (by assumption))))

theorem vids_disconnectH (hv : VideoIdsNonNeg w.sessions)
    (h : disconnectH uid w = some w2) : VideoIdsNonNeg w2.sessions := by
  unfold disconnectH at h
  repeat' split at h
  all_goals first
    | exact Option.noConfusion h
    | (simp only [Option.some.injEq] at h
       subst h
       first
         | exact hv
         | exact vidsNN_delKey hv
         | (refine vidsNN_setKey hv ?_
            dsimp only
            exact hv _ (mem_of_getKey (by assumption))))

theorem vids_legacyCreateH (hv : VideoIdsNonNeg w.sessions)
    (hg : v.isNonNegIntNum = true) :
    VideoIdsNonNeg ((legacyCreateH v fresh now w).1).sessions := by
  unfold legacyCreateH
  split
  · exact hv
  · split
    · exact vidsNN_setKey hv (toInt_nonneg_of_isNonNegIntNum hg)
    · exact hv

theorem vids_legacyUpdateH (hv : VideoIdsNonNeg w.sessions) :
    VideoIdsNonNeg ((legacyUpdateH sid b now w).1).sessions := by
  unfold legacyUpdateH
  repeat' split
  all_goals first
    | exact hv
    | (refine vidsNN_setKey hv ?_
       dsimp only
       exact hv _ (mem_of_getKey (by assumption)))

theorem vids_legacyGetH (hv : VideoIdsNonNeg w.sessions) :
    VideoIdsNonNeg ((legacyGetH sid now w).1).sessions := by
  unfold legacyGetH
  split
  · exact hv
  · refine vidsNN_setKey hv ?_
    dsimp only
    exact hv _ (mem_of_getKey (by assumption))

theorem vids_vacuumH (hv : VideoIdsNonNeg w.sessions) :
    VideoIdsNonNeg ((vacuumH now w).sessions) := by
  unfold vacuumH
  rw [foldl_delKey_eq_filter]
  intro p hp
  exact hv p (List.mem_filter.mp hp).1

/-- Any state reachable while the legacy create endpoint is only ever
given non-negative integral `videoId` inputs has only non-negative
stored `videoId`s. -/
theorem vids_reachable (h : ReachableG legacyCreateNonNeg w) :
    VideoIdsNonNeg w.sessions := by
  induction h with
  | init =>
      intro p hp
      simp [initWorld] at hp
  | step w w2 e now hr hg hs ih =>
      cases hs with
      | connect uid now hfresh => exact ih
      | reboot w2 uid d now r es hlive h => exact vids_rebootH ih h
      | createSession w2 uid v fresh now r es hlive hfresh h =>
          exact vids_createSessionH ih h
      | joinSession w2 uid sidV now r es hlive h => exact vids_joinSessionH ih h
      | leaveSession w2 uid now r es hlive h => exact vids_leaveSessionH ih h
      | updateSession w2 uid d now r es hlive h => exact vids_updateSessionH ih h
      | disconnect w2 uid now hlive h => exact vids_disconnectH ih h
      | legacyCreate v fresh now hfresh => exact vids_legacyCreateH ih hg
      | legacyUpdate sid b now => exact vids_legacyUpdateH ih
      | legacyGet sid now => exact vids_legacyGetH ih
      | vacuum now => exact vids_vacuumH ih

/-! ### Broadcast and vacuum characterizations -/

theorem broadcast_complete (uid : String) (reg : List (String × User))
    (msg : SyncInfo) (ids : List String)
    (h : ∀ m ∈ ids, m ≠ uid → (getKey m reg).isSome) :
    broadcast uid reg msg ids =
      some ((ids.filter (fun m => m ≠ uid)).map (fun m => ⟨m, .update msg⟩)) := by
  induction ids with
  | nil => rfl
  | cons a ids ih =>
      have ih2 := ih (fun m hm => h m (List.mem_cons_of_mem a hm))
      by_cases ha : a = uid
      · subst ha
        simp [broadcast, ih2, List.filter_cons]
      · obtain ⟨u, hu⟩ :=
          Option.isSome_iff_exists.mp (h a (List.mem_cons_self a ids) ha)
        simp [broadcast, ha, hu, ih2, List.filter_cons]

theorem getKey_filter {m : List (String × α)} (hnd : (keys m).Nodup)
    (q : String × α → Bool) :
    getKey k (m.filter q) = some v ↔ getKey k m = some v ∧ q (k, v) = true := by
  constructor
  · intro h
    have hm := List.mem_filter.mp (mem_of_getKey h)
    exact ⟨getKey_eq_some_of_mem hnd hm.1, hm.2⟩
  · rintro ⟨h1, h2⟩
    have hnd2 : (keys (m.filter q)).Nodup :=
      ((List.filter_sublist m).map Prod.fst).nodup hnd
    exact getKey_eq_some_of_mem hnd2 (List.mem_filter.mpr ⟨mem_of_getKey h1, h2⟩)

theorem vacuumH_eq_filter (hnd : (keys w.sessions).Nodup) (now : ℤ) :
    vacuumH now w = ⟨w.sessions.filter (fun p => !(isStale now p.2)), w.users⟩ := by
  unfold vacuumH
  rw [foldl_delKey_eq_filter]
  congr 1
  apply List.filter_congr
  intro p hp
  cases hstale : isStale now p.2 with
  | true =>
      have hmem : p.1 ∈ (w.sessions.filter (fun q => isStale now q.2)).map Prod.fst :=
        List.mem_map.mpr ⟨p, List.mem_filter.mpr ⟨hp, hstale⟩, rfl⟩
      simp [hmem]
  | false =>
      have hnotin : p.1 ∉ (w.sessions.filter (fun q => isStale now q.2)).map Prod.fst := by
        intro hin
        simp only [List.mem_map, List.mem_filter] at hin
        obtain ⟨⟨qk, qs⟩, ⟨hq1, hq2⟩, hq3⟩ := hin
        obtain ⟨pk, ps⟩ := p
        simp only at hq3
        subst hq3
        have : qs = ps := mem_unique_of_keys_nodup hnd hq1 hp
        subst this
        simp only at hstale
        rw [hstale] at hq2
        exact Bool.noConfusion hq2
      simp [hnotin]

/-! ### Consistency predicates of C5 -/

/-- A user id is listed by a stored session exactly when that user's
record points back at the session. -/
def ConsistentMembership (w : World) : Prop :=
  ∀ p ∈ w.sessions, ∀ uid : String,
    (uid ∈ (p.2 : Session).userIds ↔
      ∃ u, getKey uid w.users = some u ∧ u.sessionId = some p.1)

/-- No user id is listed by two stored sessions with different ids. -/
def AtMostOneSession (w : World) : Prop :=
  ∀ p ∈ w.sessions, ∀ q ∈ w.sessions, ∀ uid : String,
    uid ∈ (p.2 : Session).userIds → uid ∈ (q.2 : Session).userIds → p.1 = q.1

/-- Guard monotonicity: a run that obeys a stronger guard also obeys a
weaker one. -/
theorem reachable_mono {G H : World → Event → Prop}
    (hGH : ∀ w2 e2, G w2 e2 → H w2 e2) (h : ReachableG G w) : ReachableG H w := by
  induction h with
  | init => exact .init
  | step w w2 e now hr hg hs ih => exact .step w w2 e now ih (hGH w e hg) hs

/-! ### A concrete run of the system

The trace below drives the live protocol into the inconsistent state the
source allows: `u1` creates `s1`, `u2` joins it, then `u1` calls
`createSession` again without leaving (which the server accepts), and
finally `u1` disconnects.  This strands the dead id `u1` in `s1`'s
member list. -/

def exW1 : World := ⟨[], [("u1", ⟨"u1", none⟩)]⟩

def exS1 : Session := ⟨"s1", 0, 0, 0, .paused, ["u1"], 1⟩

def exW2 : World := ⟨[("s1", exS1)], [("u1", ⟨"u1", some "s1"⟩)]⟩

def exW3 : World :=
  ⟨[("s1", exS1)], [("u2", ⟨"u2", none⟩), ("u1", ⟨"u1", some "s1"⟩)]⟩

def exS1b : Session := ⟨"s1", 0, 0, 0, .paused, ["u1", "u2"], 1⟩

def exW4 : World :=
  ⟨[("s1", exS1b)], [("u2", ⟨"u2", some "s1"⟩), ("u1", ⟨"u1", some "s1"⟩)]⟩

def exS2 : Session := ⟨"s2", 0, 0, 0, .paused, ["u1"], 2⟩

def exW5 : World :=
  ⟨[("s2", exS2), ("s1", exS1b)],
   [("u1", ⟨"u1", some "s2"⟩), ("u2", ⟨"u2", some "s1"⟩)]⟩

def exW6 : World := ⟨[("s1", exS1b)], [("u2", ⟨"u2", some "s1"⟩)]⟩

theorem step_ex1 : Step initWorld (.connect "u1") 0 exW1 :=
  Step.connect initWorld "u1" 0 rfl

theorem step_ex2 : Step exW1 (.createSession "u1" (.num 1) "s1") 0 exW2 :=
  Step.createSession exW1 exW2 "u1" (.num 1) "s1" 0
    (.ok ⟨0, 0, "s1", .paused⟩) [] (by decide) rfl (by decide)

theorem step_ex3 : Step exW2 (.connect "u2") 0 exW3 :=
  Step.connect exW2 "u2" 0 rfl

theorem step_ex4 : Step exW3 (.joinSession "u2" (.str "s1")) 0 exW4 :=
  Step.joinSession exW3 exW4 "u2" (.str "s1") 0
    (.ok ⟨1, 0, 0, .paused⟩) [] (by decide) (by decide)

theorem step_ex5 : Step exW4 (.createSession "u1" (.num 2) "s2") 0 exW5 :=
  Step.createSession exW4 exW5 "u1" (.num 2) "s2" 0
    (.ok ⟨0, 0, "s2", .paused⟩) [] (by decide) (by decide) (by decide)

theorem step_ex6 : Step exW5 (.disconnect "u1") 0 exW6 :=
  Step.disconnect exW5 exW6 "u1" 0 (by decide) (by decide)

theorem reachable_exW4 : ReachableG disciplined exW4 := by
  have r1 : ReachableG disciplined exW1 := by
    refine ReachableG.step _ _ _ 0 ReachableG.init ?_ step_ex1
    exact trivial
  have r2 : ReachableG disciplined exW2 := by
    refine ReachableG.step _ _ _ 0 r1 ?_ step_ex2
    intro u hu
    have h2 : getKey "u1" exW1.users = some (⟨"u1", none⟩ : User) := by decide
    rw [h2] at hu
    injection hu with hu
    subst hu
    rfl
  have r3 : ReachableG disciplined exW3 := by
    refine ReachableG.step _ _ _ 0 r2 ?_ step_ex3
    exact trivial
  refine ReachableG.step _ _ _ 0 r3 ?_ step_ex4
  exact trivial

theorem reachable_any_exW5 : ReachableG anyEvent exW5 := by
  refine ReachableG.step _ _ _ 0
    (reachable_mono (fun w2 e2 _ => trivial) reachable_exW4) ?_ step_ex5
  exact trivial

theorem reachable_any_exW6 : ReachableG anyEvent exW6 := by
  refine ReachableG.step _ _ _ 0 reachable_any_exW5 ?_ step_ex6
  exact trivial

/-! ### Behaviour of a successful updateSession -/

theorem updateSessionH_eq (w : World) (uid sid : String) (u : User) (s : Session)
    (d : UpdateData) (now : ℤ) (st : PlayState)
    (hu : getKey uid w.users = some u) (hsid : u.sessionId = some sid)
    (hs : getKey sid w.sessions = some s)
    (ht : d.lastKnownTime.isNonNegIntNum = true)
    (he : d.lastKnownTimeUpdatedAt.isNonNegIntNum = true)
    (hst : d.state.toPlayState = some st)
    (hreg : ∀ m ∈ s.userIds, m ≠ uid → (getKey m w.users).isSome) :
    updateSessionH uid d now w =
      some (⟨setKey sid { s with lastActivity := now,
                                 lastKnownTime := d.lastKnownTime.toInt,
                                 lastKnownTimeUpdatedAt := d.lastKnownTimeUpdatedAt.toInt,
                                 state := st } w.sessions, w.users⟩,
            .ok (),
            (s.userIds.filter (fun m => m ≠ uid)).map
              (fun m => ⟨m, .update ⟨d.lastKnownTime.toInt,
                                     d.lastKnownTimeUpdatedAt.toInt, st⟩⟩)) := by
  have hb := broadcast_complete uid w.users
    ⟨d.lastKnownTime.toInt, d.lastKnownTimeUpdatedAt.toInt, st⟩ s.userIds hreg
  unfold updateSessionH
  rw [hu]
  simp only [hsid, ht, he, hst, hs, hb, if_true]

/-- C1: for a caller who is a member of a session and valid input
(non-negative integral `lastKnownTime` and `lastKnownTimeUpdatedAt`,
`state` one of `'playing'`/`'paused'`), a successful `updateSession`
overwrites the session's `lastKnownTime`, `lastKnownTimeUpdatedAt` and
`state` with exactly the caller-supplied values — the timestamp taken
verbatim from the caller, not the server clock `now` — and pushes
exactly one `update` event carrying those same three values to every
other member, and none to the caller. -/
theorem updateSession_overwrites_and_broadcasts
    (w : World) (uid sid : String) (u : User) (s : Session)
    (d : UpdateData) (now : ℤ) (st : PlayState)
    (hu : getKey uid w.users = some u) (hsid : u.sessionId = some sid)
    (hs : getKey sid w.sessions = some s)
    (ht : d.lastKnownTime.isNonNegIntNum = true)
    (he : d.lastKnownTimeUpdatedAt.isNonNegIntNum = true)
    (hst : d.state.toPlayState = some st)
    (hnd : s.userIds.Nodup)
    (hreg : ∀ m ∈ s.userIds, m ≠ uid → (getKey m w.users).isSome) :
    ∃ w2 es, updateSessionH uid d now w = some (w2, .ok (), es) ∧
      getKey sid w2.sessions = some
        { s with lastActivity := now,
                 lastKnownTime := d.lastKnownTime.toInt,
                 lastKnownTimeUpdatedAt := d.lastKnownTimeUpdatedAt.toInt,
                 state := st } ∧
      w2.users = w.users ∧
      (∀ m ∈ s.userIds, m ≠ uid →
        es.count ⟨m, .update ⟨d.lastKnownTime.toInt,
                              d.lastKnownTimeUpdatedAt.toInt, st⟩⟩ = 1) ∧
      (∀ x ∈ es, x.payload = .update ⟨d.lastKnownTime.toInt,
                                      d.lastKnownTimeUpdatedAt.toInt, st⟩ ∧
                 x.target ∈ s.userIds ∧ x.target ≠ uid) ∧
      (∀ pl, Emit.mk uid pl ∉ es) := by
  refine ⟨_, _, updateSessionH_eq w uid sid u s d now st hu hsid hs ht he hst hreg,
          getKey_setKey_self .., rfl, ?_, ?_, ?_⟩
  · intro m hm hmne
    have h1 := List.count_map_of_injective
      (s.userIds.filter (fun m => m ≠ uid))
      (fun x : String => Emit.mk x (.update ⟨d.lastKnownTime.toInt,
                                             d.lastKnownTimeUpdatedAt.toInt, st⟩))
      (fun a b hab => by injection hab) m
    exact h1.trans (List.count_eq_one_of_mem (hnd.filter _)
      (List.mem_filter.mpr ⟨hm, by simpa using hmne⟩))
  · intro x hx
    simp only [List.mem_map, List.mem_filter, decide_eq_true_eq] at hx
    obtain ⟨m, ⟨hm1, hm2⟩, hm3⟩ := hx
    subst hm3
    exact ⟨rfl, hm1, hm2⟩
  · intro pl hmem
    simp only [List.mem_map, List.mem_filter, decide_eq_true_eq] at hmem
    obtain ⟨m, ⟨_, hm2⟩, hm3⟩ := hmem
    exact hm2 (congrArg Emit.target hm3)

/-- Witness for C1: in the session `s1` = {u1, u2}, an update by `u1`
stores the caller's values and pushes exactly one event to `u2`. -/
theorem updateSession_overwrites_and_broadcasts_witness :
    ∃ w2 es, updateSessionH "u1" ⟨.num 10, .num 20, .str "playing"⟩ 30 exW4 =
        some (w2, .ok (), es) ∧
      getKey "s1" w2.sessions = some ⟨"s1", 30, 10, 20, .playing, ["u1", "u2"], 1⟩ ∧
      w2.users = exW4.users ∧
      (∀ m ∈ exS1b.userIds, m ≠ "u1" →
        es.count ⟨m, .update ⟨10, 20, .playing⟩⟩ = 1) ∧
      (∀ x ∈ es, x.payload = .update ⟨10, 20, .playing⟩ ∧
                 x.target ∈ exS1b.userIds ∧ x.target ≠ "u1") ∧
      (∀ pl, Emit.mk "u1" pl ∉ es) :=
  updateSession_overwrites_and_broadcasts exW4 "u1" "s1"
    ⟨"u1", some "s1"⟩ exS1b ⟨.num 10, .num 20, .str "playing"⟩ 30 .playing
    (by decide) (by decide) (by decide) (by decide) (by decide) (by decide)
    (by decide) (by decide)

/-- C3: `createSession(videoId)` with a non-negative integral `videoId`
registers a fresh session with `state = 'paused'`, `lastKnownTime = 0`,
`lastKnownTimeUpdatedAt = now`, member list exactly the caller, sets the
caller's `sessionId`, and replies with the new session id and those
playback fields; any other `videoId` fails with the invalid-video-id
error and leaves both stores exactly as they were. -/
theorem createSession_spec (w : World) (uid fresh : String) (u : User)
    (now : ℤ) (v : JVal) (hu : getKey uid w.users = some u) :
    (v.isNonNegIntNum = true →
      ∃ w2, createSessionH uid v fresh now w =
          some (w2, .ok ⟨0, now, fresh, .paused⟩, []) ∧
        getKey fresh w2.sessions =
          some ⟨fresh, now, 0, now, .paused, [uid], v.toInt⟩ ∧
        getKey uid w2.users = some { u with sessionId := some fresh }) ∧
    (v.isNonNegIntNum = false →
      createSessionH uid v fresh now w =
        some (w, .err "Invalid video ID.", [])) := by
  constructor
  · intro hval
    have heq : createSessionH uid v fresh now w =
        some (⟨setKey fresh ⟨fresh, now, 0, now, .paused, [uid], v.toInt⟩
                 w.sessions,
               setKey uid { u with sessionId := some fresh } w.users⟩,
              .ok ⟨0, now, fresh, .paused⟩, []) := by
      unfold createSessionH
      rw [hu]
      simp only [hval, if_true]
    exact ⟨_, heq, getKey_setKey_self .., getKey_setKey_self ..⟩
  · intro hval
    unfold createSessionH
    simp only [hval, Bool.false_eq_true, if_false]

/-- Witness for C3: a valid and an invalid `createSession` call against
a one-user world. -/
theorem createSession_spec_witness :
    (∃ w2, createSessionH "u1" (.num 42) "s1" 5 exW1 =
        some (w2, .ok ⟨0, 5, "s1", .paused⟩, []) ∧
      getKey "s1" w2.sessions = some ⟨"s1", 5, 0, 5, .paused, ["u1"], 42⟩ ∧
      getKey "u1" w2.users = some ⟨"u1", some "s1"⟩) ∧
    createSessionH "u1" (.num (-3)) "s1" 5 exW1 =
      some (exW1, .err "Invalid video ID.", []) :=
  ⟨(createSession_spec exW1 "u1" "s1" ⟨"u1", none⟩ 5 (.num 42) (by decide)).1
     (by decide),
   (createSession_spec exW1 "u1" "s1" ⟨"u1", none⟩ 5 (.num (-3)) (by decide)).2
     (by decide)⟩

/-- C6: `joinSession` fails with the unknown-session error whenever the
id is not in the store (even for a caller already in a session), fails
with the already-in-a-session error when the id exists but the caller's
`sessionId` is set — the join is rejected, not switched — and on success
appends the caller to the member list, sets the caller's `sessionId`,
and replies with the session's current `videoId`, `lastKnownTime`,
`lastKnownTimeUpdatedAt` and `state`. -/
theorem joinSession_spec (w : World) (uid sid : String) (u : User) (s : Session)
    (hu : getKey uid w.users = some u) :
    (getKey sid w.sessions = none →
      joinSessionH uid (.str sid) w = some (w, .err "Invalid session ID.", [])) ∧
    (getKey sid w.sessions = some s → u.sessionId ≠ none →
      joinSessionH uid (.str sid) w = some (w, .err "Already in a session.", [])) ∧
    (getKey sid w.sessions = some s → u.sessionId = none →
      ∃ w2, joinSessionH uid (.str sid) w =
          some (w2, .ok ⟨s.videoId, s.lastKnownTime, s.lastKnownTimeUpdatedAt,
                         s.state⟩, []) ∧
        getKey sid w2.sessions = some { s with userIds := s.userIds ++ [uid] } ∧
        getKey uid w2.users = some { u with sessionId := some sid }) := by
  refine ⟨?_, ?_, ?_⟩
  · intro hnone
    unfold joinSessionH
    simp only [hnone]
  · intro hs hin
    obtain ⟨sid2, hsid2⟩ := Option.ne_none_iff_exists.mp hin
    unfold joinSessionH
    simp only [hs, hu, ← hsid2]
  · intro hs hnone
    have heq : joinSessionH uid (.str sid) w =
        some (⟨setKey sid { s with userIds := s.userIds ++ [uid] } w.sessions,
               setKey uid { u with sessionId := some sid } w.users⟩,
              .ok ⟨s.videoId, s.lastKnownTime, s.lastKnownTimeUpdatedAt,
                   s.state⟩, []) := by
      unfold joinSessionH
      simp only [hs, hu, hnone]
    exact ⟨_, heq, getKey_setKey_self .., getKey_setKey_self ..⟩

/-- Witness for C6: against the two-user world, joining an unknown id
fails, a second join by the already-joined `u2` fails, and a fresh user
`u3` joins `s1` successfully. -/
theorem joinSession_spec_witness :
    joinSessionH "u2" (.str "zz") exW4 =
      some (exW4, .err "Invalid session ID.", []) ∧
    joinSessionH "u2" (.str "s1") exW4 =
      some (exW4, .err "Already in a session.", []) ∧
    (∃ w2, joinSessionH "u3" (.str "s1")
        ⟨exW4.sessions, ("u3", ⟨"u3", none⟩) :: exW4.users⟩ =
          some (w2, .ok ⟨1, 0, 0, .paused⟩, []) ∧
        getKey "s1" w2.sessions =
          some ⟨"s1", 0, 0, 0, .paused, ["u1", "u2", "u3"], 1⟩ ∧
        getKey "u3" w2.users = some ⟨"u3", some "s1"⟩) :=
  ⟨(joinSession_spec exW4 "u2" "zz" ⟨"u2", some "s1"⟩ exS1b (by decide)).1
     (by decide),
   (joinSession_spec exW4 "u2" "s1" ⟨"u2", some "s1"⟩ exS1b (by decide)).2.1
     (by decide) (by decide),
   (joinSession_spec ⟨exW4.sessions, ("u3", ⟨"u3", none⟩) :: exW4.users⟩
      "u3" "s1" ⟨"u3", none⟩ exS1b (by decide)).2.2 (by decide) rfl⟩

/-- C2: a `reboot` call with well-formed input (16-character session id
string, non-negative integral `lastKnownTime`, `lastKnownTimeUpdatedAt`
and `videoId`, `state` one of `'playing'`/`'paused'`): if the id is in
the store, the caller is appended to the member list and the stored
`lastKnownTime`, `lastKnownTimeUpdatedAt` and `state` are returned with
the stored playback fields unchanged — the caller-supplied playback
fields are ignored; if the id is unknown, a new session is created whose
`lastKnownTime`, `lastKnownTimeUpdatedAt`, `state` and `videoId` are
exactly the caller-supplied values, with the caller as sole member. -/
theorem reboot_spec (w : World) (uid sid : String) (u : User)
    (d : RebootData) (now : ℤ) (st : PlayState)
    (hu : getKey uid w.users = some u)
    (hsid : d.sessionId = .str sid) (hlen : sid.length = 16)
    (ht : d.lastKnownTime.isNonNegIntNum = true)
    (he : d.lastKnownTimeUpdatedAt.isNonNegIntNum = true)
    (hst : d.state.toPlayState = some st)
    (hv : d.videoId.isNonNegIntNum = true) :
    (∀ s, getKey sid w.sessions = some s →
      ∃ w2, rebootH uid d now w =
          some (w2, .ok ⟨s.lastKnownTime, s.lastKnownTimeUpdatedAt, s.state⟩, []) ∧
        getKey sid w2.sessions = some { s with userIds := s.userIds ++ [uid] } ∧
        getKey uid w2.users = some { u with sessionId := some sid }) ∧
    (getKey sid w.sessions = none →
      ∃ w2, rebootH uid d now w =
          some (w2, .ok ⟨d.lastKnownTime.toInt, d.lastKnownTimeUpdatedAt.toInt,
                         st⟩, []) ∧
        getKey sid w2.sessions =
          some ⟨sid, now, d.lastKnownTime.toInt, d.lastKnownTimeUpdatedAt.toInt,
                st, [uid], d.videoId.toInt⟩ ∧
        getKey uid w2.users = some { u with sessionId := some sid }) := by
  constructor
  · intro s hs
    have heq : rebootH uid d now w =
        some (⟨setKey sid { s with userIds := s.userIds ++ [uid] } w.sessions,
               setKey uid { u with sessionId := some sid } w.users⟩,
              .ok ⟨s.lastKnownTime, s.lastKnownTimeUpdatedAt, s.state⟩, []) := by
      unfold rebootH
      simp only [hsid, hlen, ht, he, hst, hv, hu, hs, if_true]
    exact ⟨_, heq, getKey_setKey_self .., getKey_setKey_self ..⟩
  · intro hnone
    have heq : rebootH uid d now w =
        some (⟨setKey sid ⟨sid, now, d.lastKnownTime.toInt,
                           d.lastKnownTimeUpdatedAt.toInt, st, [uid],
                           d.videoId.toInt⟩ w.sessions,
               setKey uid { u with sessionId := some sid } w.users⟩,
              .ok ⟨d.lastKnownTime.toInt, d.lastKnownTimeUpdatedAt.toInt, st⟩,
              []) := by
      unfold rebootH
      simp only [hsid, hlen, ht, he, hst, hv, hu, hnone, if_true]
    exact ⟨_, heq, getKey_setKey_self .., getKey_setKey_self ..⟩

/-- Witness for C2: a reboot against an existing 16-character session id
returns the stored values (ignoring the offered ones), and a reboot with
an unknown id creates the session from the offered values. -/
theorem reboot_spec_witness :
    (∃ w2, rebootH "u1"
        ⟨.str "0123456789abcdef", .num 7, .num 8, .str "playing", .num 9⟩ 99
        ⟨[("0123456789abcdef", ⟨"0123456789abcdef", 0, 1, 2, .paused, ["u9"], 3⟩)],
         [("u1", ⟨"u1", none⟩)]⟩ =
          some (w2, .ok ⟨1, 2, .paused⟩, []) ∧
        getKey "0123456789abcdef" w2.sessions =
          some ⟨"0123456789abcdef", 0, 1, 2, .paused, ["u9", "u1"], 3⟩ ∧
        getKey "u1" w2.users = some ⟨"u1", some "0123456789abcdef"⟩) ∧
    (∃ w2, rebootH "u1"
        ⟨.str "0123456789abcdef", .num 7, .num 8, .str "playing", .num 9⟩ 99
        exW1 =
          some (w2, .ok ⟨7, 8, .playing⟩, []) ∧
        getKey "0123456789abcdef" w2.sessions =
          some ⟨"0123456789abcdef", 99, 7, 8, .playing, ["u1"], 9⟩ ∧
        getKey "u1" w2.users = some ⟨"u1", some "0123456789abcdef"⟩) :=
  ⟨(reboot_spec
      ⟨[("0123456789abcdef", ⟨"0123456789abcdef", 0, 1, 2, .paused, ["u9"], 3⟩)],
       [("u1", ⟨"u1", none⟩)]⟩
      "u1" "0123456789abcdef" ⟨"u1", none⟩
      ⟨.str "0123456789abcdef", .num 7, .num 8, .str "playing", .num 9⟩ 99 .playing
      (by decide) rfl (by decide) (by decide) (by decide) (by decide)
      (by decide)).1
     ⟨"0123456789abcdef", 0, 1, 2, .paused, ["u9"], 3⟩ (by decide),
   (reboot_spec exW1 "u1" "0123456789abcdef" ⟨"u1", none⟩
      ⟨.str "0123456789abcdef", .num 7, .num 8, .str "playing", .num 9⟩ 99 .playing
      (by decide) rfl (by decide) (by decide) (by decide) (by decide)
      (by decide)).2 rfl⟩

/-- The post-state condition of C4: the departed session is gone (and
unjoinable) if its member list emptied, otherwise it survives with the
caller removed; and no member count is negative. -/
def DestroyedOrShrunk (sid uid : String) (s : Session) (w2 : World) : Prop :=
  (s.userIds.filter (fun x => x ≠ uid) = [] →
    getKey sid w2.sessions = none ∧
    ∀ uid2, joinSessionH uid2 (.str sid) w2 =
      some (w2, .err "Invalid session ID.", [])) ∧
  (s.userIds.filter (fun x => x ≠ uid) ≠ [] →
    getKey sid w2.sessions =
      some { s with userIds := s.userIds.filter (fun x => x ≠ uid) }) ∧
  (∀ p ∈ w2.sessions, 0 ≤ (((p.2 : Session).userIds.length : ℤ)))

/-- C4: when a member list becomes empty through `leaveSession` or
through a disconnect, the session is deleted within the same operation,
so a subsequent `joinSession` with that id fails with the
unknown-session error; member counts (list lengths) are never
negative. -/
theorem leave_disconnect_destroy_spec (w : World) (uid sid : String)
    (u : User) (s : Session)
    (hu : getKey uid w.users = some u) (hsid : u.sessionId = some sid)
    (hs : getKey sid w.sessions = some s) :
    (∃ w2, leaveSessionH uid w = some (w2, .ok (), []) ∧
       DestroyedOrShrunk sid uid s w2) ∧
    (∃ w3, disconnectH uid w = some w3 ∧ DestroyedOrShrunk sid uid s w3) := by
  have hmain : ∀ users2 : List (String × User),
      DestroyedOrShrunk sid uid s
        ⟨if s.userIds.filter (fun x => x ≠ uid) = []
          then delKey sid w.sessions
          else setKey sid { s with userIds := s.userIds.filter (fun x => x ≠ uid) }
                 w.sessions,
         users2⟩ := by
    intro users2
    by_cases hrest : s.userIds.filter (fun x => x ≠ uid) = []
    · rw [DestroyedOrShrunk]
      rw [if_pos hrest]
      refine ⟨fun _ => ⟨getKey_delKey_self .., ?_⟩,
              fun hne => absurd hrest hne, fun p _ => by omega⟩
      intro uid2
      unfold joinSessionH
      simp only [getKey_delKey_self]
    · rw [DestroyedOrShrunk]
      rw [if_neg hrest]
      exact ⟨fun hcontra => absurd hcontra hrest,
             fun _ => getKey_setKey_self .., fun p _ => by omega⟩
  constructor
  · refine ⟨⟨_, setKey uid { u with sessionId := none } w.users⟩, ?_,
            hmain (setKey uid { u with sessionId := none } w.users)⟩
    unfold leaveSessionH
    rw [hu]
    simp only [hsid, hs]
  · refine ⟨⟨_, delKey uid w.users⟩, ?_, hmain (delKey uid w.users)⟩
    unfold disconnectH
    rw [hu]
    simp only [hsid, hs]

/-- Witness for C4: `u1` is the sole member of `s1`; both leaving and
disconnecting delete the session at once and a later join of `s1`
fails. -/
theorem leave_disconnect_destroy_spec_witness :
    (∃ w2, leaveSessionH "u1" exW2 = some (w2, .ok (), []) ∧
       DestroyedOrShrunk "s1" "u1" exS1 w2) ∧
    (∃ w3, disconnectH "u1" exW2 = some w3 ∧
       DestroyedOrShrunk "s1" "u1" exS1 w3) :=
  leave_disconnect_destroy_spec exW2 "u1" "s1" ⟨"u1", some "s1"⟩ exS1
    (by decide) (by decide) (by decide)

/-- C9: the vacuum sweep deletes exactly the sessions with an empty
member list whose `lastActivity` lies more than one hour in the past
(ids collected in a first pass, deleted in a second), and repeating the
sweep at the same instant with no intervening activity deletes nothing
further. -/
theorem vacuum_spec (now : ℤ) (w : World) (hnd : (keys w.sessions).Nodup) :
    (∀ k s, getKey k (vacuumH now w).sessions = some s ↔
       getKey k w.sessions = some s ∧
         ¬(s.userIds = [] ∧ 1000 * 60 * 60 < now - s.lastActivity)) ∧
    vacuumH now (vacuumH now w) = vacuumH now w := by
  have hb : ∀ s : Session,
      ((!isStale now s) = true ↔
        ¬(s.userIds = [] ∧ 1000 * 60 * 60 < now - s.lastActivity)) := by
    intro s
    constructor
    · intro h hcontra
      obtain ⟨he, hlt⟩ := hcontra
      have hst : isStale now s = true := by
        simp only [isStale, he, List.isEmpty_nil, Bool.true_and,
          decide_eq_true_eq]
        omega
      rw [hst] at h
      exact Bool.noConfusion h
    · intro h
      cases hst : isStale now s with
      | false => rfl
      | true =>
          exfalso
          apply h
          simp only [isStale, Bool.and_eq_true, List.isEmpty_iff,
            decide_eq_true_eq] at hst
          exact ⟨hst.1, by omega⟩
  constructor
  · intro k s
    rw [vacuumH_eq_filter hnd]
    rw [getKey_filter hnd]
    exact and_congr_right (fun _ => hb s)
  · have hnd2 : (keys (vacuumH now w).sessions).Nodup := by
      rw [vacuumH_eq_filter hnd]
      exact ((List.filter_sublist _).map Prod.fst).nodup hnd
    rw [vacuumH_eq_filter hnd2, vacuumH_eq_filter hnd]
    simp only [List.filter_filter]
    congr 1
    apply List.filter_congr
    intro p _
    cases isStale now p.2 <;> rfl

/-- Witness for C9: a store holding one stale empty session and one
active session; the sweep keeps exactly the active one and a second
sweep changes nothing. -/
theorem vacuum_spec_witness :
    (∀ k s,
       getKey k (vacuumH 4000000
         ⟨[("a", ⟨"a", 0, 0, 0, .paused, [], 1⟩),
           ("b", ⟨"b", 3999999, 0, 0, .paused, [], 2⟩)], []⟩).sessions = some s ↔
       getKey k
         (⟨[("a", ⟨"a", 0, 0, 0, .paused, [], 1⟩),
            ("b", ⟨"b", 3999999, 0, 0, .paused, [], 2⟩)], []⟩ : World).sessions
           = some s ∧
         ¬(s.userIds = [] ∧ 1000 * 60 * 60 < 4000000 - s.lastActivity)) ∧
    vacuumH 4000000 (vacuumH 4000000
      ⟨[("a", ⟨"a", 0, 0, 0, .paused, [], 1⟩),
        ("b", ⟨"b", 3999999, 0, 0, .paused, [], 2⟩)], []⟩) =
      vacuumH 4000000
        ⟨[("a", ⟨"a", 0, 0, 0, .paused, [], 1⟩),
          ("b", ⟨"b", 3999999, 0, 0, .paused, [], 2⟩)], []⟩ :=
  vacuum_spec 4000000
    ⟨[("a", ⟨"a", 0, 0, 0, .paused, [], 1⟩),
      ("b", ⟨"b", 3999999, 0, 0, .paused, [], 2⟩)], []⟩ (by decide)

/-- C10: a successful legacy `POST /sessions/:id/update` stamps both
`lastKnownTimeUpdatedAt` and `lastActivity` with the server clock `now`;
a `lastKnownTimeUpdatedAt` field in the request body is ignored (the
result is identical for every value of that field), unlike the live
`updateSession` path, which stores the caller-supplied timestamp
verbatim. -/
theorem legacyUpdate_server_times (w : World) (sid : String) (s : Session)
    (b : LegacyUpdateBody) (now : ℤ) (st : PlayState)
    (hs : getKey sid w.sessions = some s)
    (hund : ¬ b.lastKnownTime = .undef)
    (hint : b.lastKnownTime.isIntNum = true)
    (hnn : ¬ b.lastKnownTime.toInt < 0)
    (hstu : ¬ b.state = .undef)
    (hst : b.state.toPlayState = some st) :
    legacyUpdateH sid b now w =
      (⟨setKey sid { s with lastActivity := now,
                            lastKnownTime := b.lastKnownTime.toInt,
                            lastKnownTimeUpdatedAt := now, state := st } w.sessions,
        w.users⟩,
       .ok200 { s with lastActivity := now,
                       lastKnownTime := b.lastKnownTime.toInt,
                       lastKnownTimeUpdatedAt := now, state := st }) ∧
    (∀ x : JVal,
      legacyUpdateH sid { b with lastKnownTimeUpdatedAt := x } now w =
        legacyUpdateH sid b now w) ∧
    (∀ uid u (d : UpdateData) st2, getKey uid w.users = some u →
      u.sessionId = some sid →
      d.lastKnownTime.isNonNegIntNum = true →
      d.lastKnownTimeUpdatedAt.isNonNegIntNum = true →
      d.state.toPlayState = some st2 →
      (∀ m ∈ s.userIds, m ≠ uid → (getKey m w.users).isSome) →
      ∃ w2 es, updateSessionH uid d now w = some (w2, .ok (), es) ∧
        getKey sid w2.sessions = some
          { s with lastActivity := now,
                   lastKnownTime := d.lastKnownTime.toInt,
                   lastKnownTimeUpdatedAt := d.lastKnownTimeUpdatedAt.toInt,
                   state := st2 }) := by
  refine ⟨?_, fun x => rfl, ?_⟩
  · unfold legacyUpdateH
    simp only [hs, hund, hint, hnn, hstu, hst, if_true, if_false]
  · intro uid u d st2 hu hsid hd1 hd2 hd3 hreg
    exact ⟨_, _, updateSessionH_eq w uid sid u s d now st2 hu hsid hs hd1 hd2 hd3 hreg,
           getKey_setKey_self ..⟩

/-- Witness for C10: a legacy update against the one-session store at
server time 77 stores 77 into both timestamp fields, ignoring the body
timestamp. -/
theorem legacyUpdate_server_times_witness :
    legacyUpdateH "s1" ⟨.num 5, .num 999, .str "playing"⟩ 77 exW2 =
      (⟨setKey "s1" { exS1 with lastActivity := 77, lastKnownTime := 5,
                                lastKnownTimeUpdatedAt := 77,
                                state := .playing } exW2.sessions,
        exW2.users⟩,
       .ok200 { exS1 with lastActivity := 77, lastKnownTime := 5,
                          lastKnownTimeUpdatedAt := 77, state := .playing }) ∧
    (∀ x : JVal,
      legacyUpdateH "s1"
          { (⟨.num 5, .num 999, .str "playing"⟩ : LegacyUpdateBody) with
            lastKnownTimeUpdatedAt := x } 77 exW2 =
        legacyUpdateH "s1" ⟨.num 5, .num 999, .str "playing"⟩ 77 exW2) ∧
    (∀ uid u (d : UpdateData) st2, getKey uid exW2.users = some u →
      u.sessionId = some "s1" →
      d.lastKnownTime.isNonNegIntNum = true →
      d.lastKnownTimeUpdatedAt.isNonNegIntNum = true →
      d.state.toPlayState = some st2 →
      (∀ m ∈ exS1.userIds, m ≠ uid → (getKey m exW2.users).isSome) →
      ∃ w2 es, updateSessionH uid d 77 exW2 = some (w2, .ok (), es) ∧
        getKey "s1" w2.sessions = some
          { exS1 with lastActivity := 77,
                      lastKnownTime := d.lastKnownTime.toInt,
                      lastKnownTimeUpdatedAt := d.lastKnownTimeUpdatedAt.toInt,
                      state := st2 }) :=
  legacyUpdate_server_times exW2 "s1" exS1 ⟨.num 5, .num 999, .str "playing"⟩ 77
    .playing (by decide) (by decide) (by decide) (by decide) (by decide)
    (by decide)

/-- Counterexample to C5 as stated: the state `exW5` is reachable by the
event sequence connect u1, createSession u1, connect u2, joinSession u2,
createSession u1 (the server accepts a `createSession` from a user who is
already in a session), and in it `u1` is still listed as a member of
`s1` although `u1`'s `sessionId` is `s2`. -/
theorem membership_consistency_counterexample :
    ReachableG anyEvent exW5 ∧ ¬ ConsistentMembership exW5 := by
  refine ⟨reachable_any_exW5, fun hcon => ?_⟩
  have hp : ("s1", exS1b) ∈ exW5.sessions := by decide
  have hmem := (hcon ("s1", exS1b) hp "u1").mp (by decide)
  obtain ⟨u, hu, hsid⟩ := hmem
  have hu2 : getKey "u1" exW5.users = some ⟨"u1", some "s2"⟩ := by decide
  rw [hu2] at hu
  injection hu with hu
  subst hu
  simp only at hsid
  injection hsid with hsid
  exact absurd hsid (by decide)

/-- C5 (amended): in every state reachable when `createSession` and
`reboot` are only invoked by callers not currently in a session (the
server itself does not enforce this, and the claim fails without it),
membership is consistent in both directions — a user id appears in a
session's member list exactly when that user's `sessionId` is that
session's id — and every user belongs to at most one session. -/
theorem membership_consistency_of_disciplined
    (w : World) (h : ReachableG disciplined w) :
    ConsistentMembership w ∧ AtMostOneSession w := by
  have hinv := inv_reachable h
  constructor
  · intro p hp uid
    constructor
    · intro hm
      exact hinv.membersReg p hp uid hm
    · rintro ⟨u, hu, hsid⟩
      obtain ⟨s, hs2, hmem⟩ := hinv.ptrs (uid, u) (mem_of_getKey hu) p.1 hsid
      have hp2 : getKey p.1 w.sessions = some p.2 :=
        getKey_eq_some_of_mem hinv.skeys hp
      rw [hp2] at hs2
      injection hs2 with hs2
      subst hs2
      exact hmem
  · intro p hp q hq uid hup huq
    obtain ⟨u1, hu1, hsid1⟩ := hinv.membersReg p hp uid hup
    obtain ⟨u2, hu2, hsid2⟩ := hinv.membersReg q hq uid huq
    rw [hu1] at hu2
    injection hu2 with hu2
    subst hu2
    rw [hsid1] at hsid2
    injection hsid2

/-- Witness for the amended C5: the disciplined four-event run ending in
`exW4` (two users, both members of `s1`) satisfies both consistency
directions. -/
theorem membership_consistency_of_disciplined_witness :
    ConsistentMembership exW4 ∧ AtMostOneSession exW4 :=
  membership_consistency_of_disciplined exW4 reachable_exW4

/-! ### Error replies mutate nothing -/

theorem rebootH_err_pure
    (h : rebootH uid d now w = some (w2, .err msg, es)) : w2 = w ∧ es = [] := by
  unfold rebootH at h
  repeat' split at h
  all_goals first
    | exact Option.noConfusion h
    | (simp only [Option.some.injEq, Prod.mk.injEq] at h
       obtain ⟨hw, hr, he⟩ := h
       first
         | exact ⟨hw.symm, he.symm⟩
         | exact Reply.noConfusion hr)

theorem createSessionH_err_pure
    (h : createSessionH uid v fresh now w = some (w2, .err msg, es)) :
    w2 = w ∧ es = [] := by
  unfold createSessionH at h
  repeat' split at h
  all_goals first
    | exact Option.noConfusion h
    | (simp only [Option.some.injEq, Prod.mk.injEq] at h
       obtain ⟨hw, hr, he⟩ := h
       first
         | exact ⟨hw.symm, he.symm⟩
         | exact Reply.noConfusion hr)

theorem joinSessionH_err_pure
    (h : joinSessionH uid sidV w = some (w2, .err msg, es)) :
    w2 = w ∧ es = [] := by
  unfold joinSessionH at h
  repeat' split at h
  all_goals first
    | exact Option.noConfusion h
    | (simp only [Option.some.injEq, Prod.mk.injEq] at h
       obtain ⟨hw, hr, he⟩ := h
       first
         | exact ⟨hw.symm, he.symm⟩
         | exact Reply.noConfusion hr)

theorem leaveSessionH_err_pure
    (h : leaveSessionH uid w = some (w2, .err msg, es)) : w2 = w ∧ es = [] := by
  unfold leaveSessionH at h
  repeat' split at h
  all_goals first
    | exact Option.noConfusion h
    | (simp only [Option.some.injEq, Prod.mk.injEq] at h
       obtain ⟨hw, hr, he⟩ := h
       first
         | exact ⟨hw.symm, he.symm⟩
         | exact Reply.noConfusion hr)

theorem updateSessionH_err_pure
    (h : updateSessionH uid d now w = some (w2, .err msg, es)) :
    w2 = w ∧ es = [] := by
  unfold updateSessionH at h
  repeat' split at h
  all_goals first
    | exact Option.noConfusion h
    | (simp only [Option.some.injEq, Prod.mk.injEq] at h
       obtain ⟨hw, hr, he⟩ := h
       first
         | exact ⟨hw.symm, he.symm⟩
         | exact Reply.noConfusion hr)

theorem legacyCreateH_err_pure
    (h : legacyCreateH v fresh now w = (w2, res)) (hres : ∀ s, res ≠ .ok200 s) :
    w2 = w := by
  unfold legacyCreateH at h
  repeat' split at h
  all_goals (
    simp only [Prod.mk.injEq] at h
    obtain ⟨hw, hr⟩ := h
    first
      | exact hw.symm
      | exact absurd hr.symm (hres _))

theorem legacyUpdateH_err_pure
    (h : legacyUpdateH sid b now w = (w2, res)) (hres : ∀ s, res ≠ .ok200 s) :
    w2 = w := by
  unfold legacyUpdateH at h
  repeat' split at h
  all_goals (
    simp only [Prod.mk.injEq] at h
    obtain ⟨hw, hr⟩ := h
    first
      | exact hw.symm
      | exact absurd hr.symm (hres _))

theorem legacyGetH_err_pure
    (h : legacyGetH sid now w = (w2, res)) (hres : ∀ s, res ≠ .ok200 s) :
    w2 = w := by
  unfold legacyGetH at h
  repeat' split at h
  all_goals (
    simp only [Prod.mk.injEq] at h
    obtain ⟨hw, hr⟩ := h
    first
      | exact hw.symm
      | exact absurd hr.symm (hres _))

/-! ### Handlers cannot crash when the invariant holds -/

theorem rebootH_ne_none (hu : getKey uid w.users = some u) :
    rebootH uid d now w ≠ none := by
  intro h
  unfold rebootH at h
  repeat' split at h
  all_goals first
    | exact Option.noConfusion h
    | exact absurd (by assumption : getKey uid w.users = none) (by simp [hu])

theorem createSessionH_ne_none (hu : getKey uid w.users = some u) :
    createSessionH uid v fresh now w ≠ none := by
  intro h
  unfold createSessionH at h
  repeat' split at h
  all_goals first
    | exact Option.noConfusion h
    | exact absurd (by assumption : getKey uid w.users = none) (by simp [hu])

theorem joinSessionH_ne_none (hu : getKey uid w.users = some u) :
    joinSessionH uid sidV w ≠ none := by
  intro h
  unfold joinSessionH at h
  repeat' split at h
  all_goals first
    | exact Option.noConfusion h
    | exact absurd (by assumption : getKey uid w.users = none) (by simp [hu])

theorem leaveSessionH_ne_none (hinv : Inv w)
    (hu : getKey uid w.users = some u) : leaveSessionH uid w ≠ none := by
  intro h
  unfold leaveSessionH at h
  split at h
  · rename_i hnone
    rw [hu] at hnone
    exact Option.noConfusion hnone
  · rename_i u2 hu2
    split at h
    · exact Option.noConfusion h
    · rename_i sid hsid
      split at h
      · rename_i hnone
        obtain ⟨s, hs, _⟩ := hinv.ptrs (uid, u2) (mem_of_getKey hu2) sid hsid
        rw [hs] at hnone
        exact Option.noConfusion hnone
      · exact Option.noConfusion h

theorem updateSessionH_ne_none (hinv : Inv w)
    (hu : getKey uid w.users = some u) : updateSessionH uid d now w ≠ none := by
  intro h
  unfold updateSessionH at h
  split at h
  · rename_i hnone
    rw [hu] at hnone
    exact Option.noConfusion hnone
  · rename_i u2 hu2
    split at h
    · exact Option.noConfusion h
    · rename_i sid hsid
      split at h
      · split at h
        · split at h
          · exact Option.noConfusion h
          · rename_i st hst
            split at h
            · rename_i hnone
              obtain ⟨s, hs, _⟩ := hinv.ptrs (uid, u2) (mem_of_getKey hu2) sid hsid
              rw [hs] at hnone
              exact Option.noConfusion hnone
            · rename_i s hs
              split at h
              · rename_i hbn
                have hreg : ∀ m ∈ s.userIds, m ≠ uid →
                    (getKey m w.users).isSome := by
                  intro m hm _
                  obtain ⟨um, hum, _⟩ :=
                    hinv.membersReg (sid, s) (mem_of_getKey hs) m hm
                  rw [hum]
                  rfl
                rw [broadcast_complete _ _ _ _ hreg] at hbn
                exact Option.noConfusion hbn
              · exact Option.noConfusion h
        · exact Option.noConfusion h
      · exact Option.noConfusion h

theorem disconnectH_ne_none (hinv : Inv w)
    (hu : getKey uid w.users = some u) : disconnectH uid w ≠ none := by
  intro h
  unfold disconnectH at h
  split at h
  · rename_i hnone
    rw [hu] at hnone
    exact Option.noConfusion hnone
  · rename_i u2 hu2
    split at h
    · exact Option.noConfusion h
    · rename_i sid hsid
      split at h
      · rename_i hnone
        obtain ⟨s, hs, _⟩ := hinv.ptrs (uid, u2) (mem_of_getKey hu2) sid hsid
        rw [hs] at hnone
        exact Option.noConfusion hnone
      · exact Option.noConfusion h

/-- Counterexample to C7 as stated: the state `exW6` is reachable (via
an undisciplined `createSession` by a user already in a session,
followed by that user's disconnect), the caller `u2` is a live
registered connection, and its valid `updateSession` crashes: the
broadcast loop dereferences the departed member id `u1`, which is no
longer in the user registry. -/
theorem no_crash_counterexample :
    ReachableG anyEvent exW6 ∧
    getKey "u2" exW6.users = some ⟨"u2", some "s1"⟩ ∧
    updateSessionH "u2" ⟨.num 5, .num 6, .str "playing"⟩ 7 exW6 = none :=
  ⟨reachable_any_exW6, by decide, by decide⟩

/-- C7 (amended): in every state reachable when `createSession` and
`reboot` are only invoked by callers not in a session (without this
discipline — which the server does not enforce — the `updateSession`
broadcast loop can dereference a user record absent from the registry
and crash), no handler invoked by a registered connection returns a
crash, and every validation-error reply leaves both stores exactly as
they were and pushes nothing. -/
theorem handlers_no_crash_and_pure_errors (w : World)
    (h : ReachableG disciplined w) :
    (∀ uid u d now, getKey uid w.users = some u → rebootH uid d now w ≠ none) ∧
    (∀ uid u v fresh now, getKey uid w.users = some u →
      createSessionH uid v fresh now w ≠ none) ∧
    (∀ uid u sidV, getKey uid w.users = some u →
      joinSessionH uid sidV w ≠ none) ∧
    (∀ uid u, getKey uid w.users = some u → leaveSessionH uid w ≠ none) ∧
    (∀ uid u d now, getKey uid w.users = some u →
      updateSessionH uid d now w ≠ none) ∧
    (∀ uid u, getKey uid w.users = some u → disconnectH uid w ≠ none) ∧
    (∀ now, pingH now w ≠ none) ∧
    (∀ uid d now w2 msg es,
      rebootH uid d now w = some (w2, .err msg, es) → w2 = w ∧ es = []) ∧
    (∀ uid v fresh now w2 msg es,
      createSessionH uid v fresh now w = some (w2, .err msg, es) →
        w2 = w ∧ es = []) ∧
    (∀ uid sidV w2 msg es,
      joinSessionH uid sidV w = some (w2, .err msg, es) → w2 = w ∧ es = []) ∧
    (∀ uid w2 msg es,
      leaveSessionH uid w = some (w2, .err msg, es) → w2 = w ∧ es = []) ∧
    (∀ uid d now w2 msg es,
      updateSessionH uid d now w = some (w2, .err msg, es) → w2 = w ∧ es = []) ∧
    (∀ v fresh now w2 res, legacyCreateH v fresh now w = (w2, res) →
      (∀ s, res ≠ .ok200 s) → w2 = w) ∧
    (∀ sid b now w2 res, legacyUpdateH sid b now w = (w2, res) →
      (∀ s, res ≠ .ok200 s) → w2 = w) ∧
    (∀ sid now w2 res, legacyGetH sid now w = (w2, res) →
      (∀ s, res ≠ .ok200 s) → w2 = w) := by
  have hinv := inv_reachable h
  refine ⟨fun uid u d now hu => rebootH_ne_none hu,
          fun uid u v fresh now hu => createSessionH_ne_none hu,
          fun uid u sidV hu => joinSessionH_ne_none hu,
          fun uid u hu => leaveSessionH_ne_none hinv hu,
          fun uid u d now hu => updateSessionH_ne_none hinv hu,
          fun uid u hu => disconnectH_ne_none hinv hu,
          fun now => Option.noConfusion,
          fun uid d now w2 msg es he => rebootH_err_pure he,
          fun uid v fresh now w2 msg es he => createSessionH_err_pure he,
          fun uid sidV w2 msg es he => joinSessionH_err_pure he,
          fun uid w2 msg es he => leaveSessionH_err_pure he,
          fun uid d now w2 msg es he => updateSessionH_err_pure he,
          fun v fresh now w2 res he hres => legacyCreateH_err_pure he hres,
          fun sid b now w2 res he hres => legacyUpdateH_err_pure he hres,
          fun sid now w2 res he hres => legacyGetH_err_pure he hres⟩

/-- Witness for the amended C7: the disciplined state `exW4` with live
user `u1` — a malformed `updateSession` is rejected without crashing and
without touching the stores. -/
theorem handlers_no_crash_and_pure_errors_witness :
    updateSessionH "u1" ⟨.str "oops", .num 6, .str "playing"⟩ 7 exW4 ≠ none ∧
    (updateSessionH "u1" ⟨.str "oops", .num 6, .str "playing"⟩ 7 exW4 =
      some (exW4, .err "Invalid lastKnownTime.", [])) ∧
    rebootH "u2" ⟨.num 3, .num 0, .num 0, .str "paused", .num 0⟩ 7 exW4 =
      some (exW4, .err "Invalid session ID.", []) :=
  ⟨(handlers_no_crash_and_pure_errors exW4 reachable_exW4).2.2.2.2.1
     "u1" ⟨"u1", some "s1"⟩ ⟨.str "oops", .num 6, .str "playing"⟩ 7 (by decide),
   by decide, by decide⟩

/-- Counterexample to C8 as stated: the legacy `POST /sessions/create`
validation only checks that `videoId` is an integral number, not its
sign, so a request with `videoId = -1` succeeds (status 200) and a
session whose `videoId` is negative is reachable in one step. -/
theorem videoId_nonneg_counterexample :
    legacyCreateH (.num (-1)) "s1" 0 initWorld =
      (⟨[("s1", ⟨"s1", 0, 0, 0, .paused, [], -1⟩)], []⟩,
       .ok200 ⟨"s1", 0, 0, 0, .paused, [], -1⟩) ∧
    ReachableG anyEvent ⟨[("s1", ⟨"s1", 0, 0, 0, .paused, [], -1⟩)], []⟩ ∧
    ¬ VideoIdsNonNeg
        (⟨[("s1", ⟨"s1", 0, 0, 0, .paused, [], -1⟩)], []⟩ : World).sessions := by
  refine ⟨by decide, ?_, ?_⟩
  · exact ReachableG.step _ _ _ 0 .init trivial
      (Step.legacyCreate initWorld (.num (-1)) "s1" 0 rfl)
  · intro hv
    exact absurd (hv ("s1", ⟨"s1", 0, 0, 0, .paused, [], -1⟩) (by decide))
      (by decide)

/-- C8 (amended): every session held in the store has a non-negative
`videoId` in every state reachable when the legacy
`POST /sessions/create` endpoint is only given non-negative integral
`videoId` values; the websocket creation paths (`createSession`,
`reboot`) and all mutating operations preserve the bound
unconditionally, but the legacy endpoint itself validates only
integrality, not sign. -/
theorem videoIds_nonneg_of_guarded_legacy (w : World)
    (h : ReachableG legacyCreateNonNeg w) :
    VideoIdsNonNeg w.sessions :=
  vids_reachable h

/-- Witness for the amended C8: a store built by one guarded legacy
create with `videoId = 42` satisfies the bound. -/
theorem videoIds_nonneg_of_guarded_legacy_witness :
    VideoIdsNonNeg
      (⟨[("a", ⟨"a", 0, 0, 0, .paused, [], 42⟩)], []⟩ : World).sessions :=
  videoIds_nonneg_of_guarded_legacy _
    (ReachableG.step _ _ _ 0 .init (by exact rfl)
      (Step.legacyCreate initWorld (.num 42) "a" 0 rfl))

end NPModel
